import Mathlib

/-!
Verification development for the ArcadeDSL repository (src/arcadeDSL.py).

The Python source is shallowly embedded: Python strings become `List Char`,
Python dicts become insertion-ordered association lists, Python values
(ints, floats, bools, None, strings, lists, tuples, dicts) become the
inductive type `Value` (floats are modelled as exact rationals; no claim
exercises rounding), and Python exceptions become `Except`/`Option`
results.  Mutable heap structure (property dicts shared between the parsed
tree and the binding list, metadata records shared between the object table
and the binding list) is modelled by addressing: a binding's `target_dict`
reference is a path into the tree / variable store, or an index into the
record or object heaps.
-/

set_option maxHeartbeats 1000000
set_option maxRecDepth 100000

namespace ArcadeDSL

/-- Ordered key/value list standing for a Python `dict` with `String` keys
(insertion ordered, unique keys).  `dictInsert` mirrors `d[k] = v`:
an existing key keeps its position, a new key is appended. -/
def dictInsert {α : Type} (d : List (String × α)) (k : String) (v : α) :
    List (String × α) :=
  match d with
  | [] => [(k, v)]
  | (k0, v0) :: rest =>
      if k0 = k then (k0, v) :: rest else (k0, v0) :: dictInsert rest k v

/-- `d.get(k)` / `d[k]` lookup. -/
def dictGet? {α : Type} (d : List (String × α)) (k : String) : Option α :=
  match d with
  | [] => Option.none
  | (k0, v0) :: rest => if k0 = k then some v0 else dictGet? rest k

/-- `d.pop(k, default)`: value (if present) and the dict without the key. -/
def dictPop {α : Type} (d : List (String × α)) (k : String) :
    Option α × List (String × α) :=
  match d with
  | [] => (Option.none, [])
  | (k0, v0) :: rest =>
      if k0 = k then (some v0, rest)
      else
        let r := dictPop rest k
        (r.1, (k0, v0) :: r.2)

/-- `d.setdefault(k, v)`: insert only when the key is absent. -/
def dictSetdefault {α : Type} (d : List (String × α)) (k : String) (v : α) :
    List (String × α) :=
  match dictGet? d k with
  | some _ => d
  | Option.none => d ++ [(k, v)]

/-- `d.update(e)`: insert every entry of `e` into `d` in order. -/
def dictUpdate {α : Type} (d e : List (String × α)) : List (String × α) :=
  e.foldl (fun acc kv => dictInsert acc kv.1 kv.2) d

/-! ### Values -/

/-- Python runtime values flowing through the DSL core: the output type of
`convert_value` and the contents of property dicts and the variable store.
Floats are modelled as exact rationals. -/
inductive Value where
  | int (n : Int)
  | float (q : Rat)
  | bool (b : Bool)
  | noneV
  | str (s : String)
  | list (xs : List Value)
  | tuple (xs : List Value)
  | dict (xs : List (String × Value))
deriving Repr

/-- Python numeric value of `int`/`float`/`bool` (bools are ints in Python). -/
def Value.asNum? : Value → Option Rat
  | .int n => some (n : Rat)
  | .float q => some q
  | .bool b => some (if b then 1 else 0)
  | _ => Option.none

mutual
/-- Python `==` on modelled values: numeric cross-type equality
(`1 == 1.0 == True`), element-wise on lists/tuples (a list never equals a
tuple), order-insensitive key/value equality on dicts. -/
def pyEq : Value → Value → Bool
  | .str a, .str b => a = b
  | .str _, _ => false
  | _, .str _ => false
  | .noneV, .noneV => true
  | .noneV, _ => false
  | _, .noneV => false
  | .list xs, .list ys => pyEqList xs ys
  | .list _, _ => false
  | _, .list _ => false
  | .tuple xs, .tuple ys => pyEqList xs ys
  | .tuple _, _ => false
  | _, .tuple _ => false
  | .dict xs, .dict ys => pyEqDict xs ys && pyEqDictRev ys xs
  | .dict _, _ => false
  | _, .dict _ => false
  | a, b =>
      match a.asNum?, b.asNum? with
      | some x, some y => x = y
      | _, _ => false

/-- Element-wise Python `==` on lists. -/
def pyEqList : List Value → List Value → Bool
  | [], [] => true
  | x :: xs, y :: ys => pyEq x y && pyEqList xs ys
  | _, _ => false

/-- Every entry of `xs` is present (under `pyEq`) in `ys`. -/
def pyEqDict : List (String × Value) → List (String × Value) → Bool
  | [], _ => true
  | (k, v) :: rest, ys =>
      (match dictGet? ys k with
       | some w => pyEq v w
       | Option.none => false) && pyEqDict rest ys

/-- Every key of `ys` is present in `xs` (values already checked by
`pyEqDict xs ys` when keys are unique). -/
def pyEqDictRev : List (String × Value) → List (String × Value) → Bool
  | [], _ => true
  | (k, _) :: rest, xs => (dictGet? xs k).isSome && pyEqDictRev rest xs
end

/-- Python truthiness of a modelled value. -/
def pyTruthy : Value → Bool
  | .int n => n ≠ 0
  | .float q => q ≠ 0
  | .bool b => b
  | .noneV => false
  | .str s => s ≠ ""
  | .list xs => !xs.isEmpty
  | .tuple xs => !xs.isEmpty
  | .dict xs => !xs.isEmpty

/-- Python `a or b` on values. -/
def pyOr (a b : Value) : Value := if pyTruthy a then a else b

/-! ### Structural validator (`ValidateDSLFiles`, src/arcadeDSL.py lines 82-105)

The Python function raises `SyntaxError` inside a `try` block and prints
the traceback; the raised error (with its reported positions) is the
observable failure and is modelled as the `Except.error` result. -/

/-- Opening bracket characters recognised by the validator. -/
def isOpenBr (c : Char) : Bool := c = '(' || c = '{' || c = '['

/-- Closing bracket characters recognised by the validator. -/
def isCloseBr (c : Char) : Bool := c = ')' || c = '}' || c = ']'

/-- Matching open/close bracket pairs. -/
def brMatch (o c : Char) : Bool :=
  (o = '(' && c = ')') || (o = '{' && c = '}') || (o = '[' && c = ']')

/-- Errors raised by `ValidateDSLFiles`, with the positions its messages
report. -/
inductive VErr where
  | unmatched (ch : Char) (i : Nat)
  | mismatched (opening : Char) (pos : Nat) (ch : Char) (i : Nat)
  | unclosed (ch : Char) (pos : Nat)
deriving Repr, DecidableEq

/-- The validator's scan: `stack` holds pending openers (top first) with
their positions, `i` is the current index. -/
def validateGo : List (Char × Nat) → Nat → List Char → Except VErr Unit
  | stack, _, [] =>
      match stack with
      | [] => Except.ok ()
      | (c, p) :: _ => Except.error (.unclosed c p)
  | stack, i, ch :: rest =>
      if isOpenBr ch then validateGo ((ch, i) :: stack) (i + 1) rest
      else if isCloseBr ch then
        match stack with
        | [] => Except.error (.unmatched ch i)
        | (o, p) :: st =>
            if brMatch o ch then validateGo st (i + 1) rest
            else Except.error (.mismatched o p ch i)
      else validateGo stack (i + 1) rest

/-- `ValidateDSLFiles`: balanced-bracket check over the whole text. -/
def ValidateDSLFiles (text : List Char) : Except VErr Unit :=
  validateGo [] 0 text

/-- A bracket character of either kind. -/
def isBracketCh (c : Char) : Bool := isOpenBr c || isCloseBr c

/-- Well-bracketed text: properly nested matching brackets interleaved with
arbitrary non-bracket characters.  This is the spec-side notion of
"well-bracketed source text". -/
inductive Balanced : List Char → Prop where
  | nil : Balanced []
  | other {c : Char} {s : List Char} :
      isBracketCh c = false → Balanced s → Balanced (c :: s)
  | wrap {o c : Char} {s t : List Char} : brMatch o c = true →
      Balanced s → Balanced t → Balanced (o :: s ++ c :: t)

theorem brMatch_open {o c : Char} (h : brMatch o c = true) : isOpenBr o = true := by
  simp only [brMatch, Bool.or_eq_true, Bool.and_eq_true, decide_eq_true_eq] at h
  rcases h with (⟨h1, _⟩ | ⟨h1, _⟩) | ⟨h1, _⟩ <;> simp [isOpenBr, h1]

theorem brMatch_close {o c : Char} (h : brMatch o c = true) : isCloseBr c = true := by
  simp only [brMatch, Bool.or_eq_true, Bool.and_eq_true, decide_eq_true_eq] at h
  rcases h with (⟨_, h2⟩ | ⟨_, h2⟩) | ⟨_, h2⟩ <;> simp [isCloseBr, h2]

theorem isCloseBr_not_open {c : Char} (h : isCloseBr c = true) : isOpenBr c = false := by
  simp only [isCloseBr, Bool.or_eq_true, decide_eq_true_eq] at h
  rcases h with (h | h) | h <;> simp [isOpenBr, h]

theorem isOpenBr_not_close {c : Char} (h : isOpenBr c = true) : isCloseBr c = false := by
  simp only [isOpenBr, Bool.or_eq_true, decide_eq_true_eq] at h
  rcases h with (h | h) | h <;> simp [isCloseBr, h]

theorem isBracketCh_false_parts {c : Char} (h : isBracketCh c = false) :
    isOpenBr c = false ∧ isCloseBr c = false := by
  have := Bool.or_eq_false_iff.mp (by simpa [isBracketCh] using h)
  exact this

/-- Scanning a balanced span leaves the stack unchanged and advances the
index by its length. -/
theorem validateGo_balanced {s : List Char} (hb : Balanced s) :
    ∀ (st : List (Char × Nat)) (i : Nat) (rest : List Char),
      validateGo st i (s ++ rest) = validateGo st (i + s.length) rest := by
  induction hb with
  | nil => intro st i rest; simp
  | @other c s hc _ ih =>
      intro st i rest
      obtain ⟨hno, hnc⟩ := isBracketCh_false_parts hc
      simp only [List.cons_append, validateGo, hno, hnc, Bool.false_eq_true, if_false,
        List.append_eq]
      rw [ih st (i + 1) rest]
      have hl : i + (c :: s).length = i + 1 + s.length := by
        simp only [List.length_cons]
        omega
      rw [hl]
  | @wrap o c s t hm _ _ ihs iht =>
      intro st i rest
      have ho := brMatch_open hm
      have hc := brMatch_close hm
      have hcno := isCloseBr_not_open hc
      simp only [List.cons_append, validateGo, ho, if_true, List.append_eq,
        List.append_assoc]
      rw [ihs ((o, i) :: st) (i + 1) (c :: (t ++ rest))]
      simp only [validateGo, hcno, Bool.false_eq_true, if_false, hc, if_true, hm]
      rw [iht st (i + 1 + s.length + 1) rest]
      have hl : i + (o :: (s ++ c :: t)).length = i + 1 + s.length + 1 + t.length := by
        simp only [List.length_cons, List.length_append]
        omega
      rw [hl]

/-- Claim C5, first half (used by the amended theorem): the validator
accepts every well-bracketed text. -/
theorem validate_balanced {s : List Char} (hb : Balanced s) :
    ValidateDSLFiles s = Except.ok () := by
  have h := validateGo_balanced hb [] 0 []
  simpa [ValidateDSLFiles, validateGo] using h

/-- Number of opening brackets in a text. -/
def brOpens (s : List Char) : Nat := s.countP (fun c => isOpenBr c)

/-- Number of closing brackets in a text. -/
def brCloses (s : List Char) : Nat := s.countP (fun c => isCloseBr c)

theorem brOpens_cons (c : Char) (s : List Char) :
    brOpens (c :: s) = brOpens s + (if isOpenBr c = true then 1 else 0) := by
  simp [brOpens, List.countP_cons]

theorem brCloses_cons (c : Char) (s : List Char) :
    brCloses (c :: s) = brCloses s + (if isCloseBr c = true then 1 else 0) := by
  simp [brCloses, List.countP_cons]

theorem brOpens_append (s t : List Char) :
    brOpens (s ++ t) = brOpens s + brOpens t := by
  simp [brOpens, List.countP_append]

theorem brCloses_append (s t : List Char) :
    brCloses (s ++ t) = brCloses s + brCloses t := by
  simp [brCloses, List.countP_append]

/-- If the scan succeeds, every stacked opener is eventually closed:
opening count plus pending stack equals closing count. -/
theorem validateGo_ok_counts :
    ∀ (s : List Char) (st : List (Char × Nat)) (i : Nat),
      validateGo st i s = Except.ok () → brOpens s + st.length = brCloses s := by
  intro s
  induction s with
  | nil =>
      intro st i h
      cases st with
      | nil => simp [brOpens, brCloses]
      | cons hd tl =>
          obtain ⟨c, p⟩ := hd
          simp [validateGo] at h
  | cons c rest ih =>
      intro st i h
      rw [brOpens_cons, brCloses_cons]
      by_cases ho : isOpenBr c = true
      · have hnc : isCloseBr c = false := isOpenBr_not_close ho
        simp only [validateGo, ho, if_true] at h
        have hrec := ih ((c, i) :: st) (i + 1) h
        simp only [List.length_cons] at hrec
        simp only [ho, hnc, Bool.false_eq_true, if_true, if_false]
        omega
      · by_cases hc : isCloseBr c = true
        · simp only [validateGo, ho, Bool.false_eq_true, if_false, hc, if_true] at h
          cases st with
          | nil => simp at h
          | cons hd tl =>
              obtain ⟨o, p⟩ := hd
              by_cases hm : brMatch o c = true
              · simp only [hm, if_true] at h
                have hrec := ih tl (i + 1) h
                simp only [ho, hc, Bool.false_eq_true, if_false, if_true, List.length_cons]
                omega
              · simp [hm] at h
        · simp only [validateGo, ho, Bool.false_eq_true, if_false, hc, if_false] at h
          have hrec := ih st (i + 1) h
          simp only [ho, hc, Bool.false_eq_true, if_false]
          omega

/-- Claim C5, second half as amended: deleting any single bracket from a
well-bracketed text makes the validator fail (with some reported error). -/
theorem validate_removal_fails {u v : List Char} {b : Char}
    (hb : Balanced (u ++ b :: v)) (hbr : isBracketCh b = true) :
    ∃ e, ValidateDSLFiles (u ++ v) = Except.error e := by
  have hok := validate_balanced hb
  have hcnt := validateGo_ok_counts (u ++ b :: v) [] 0 hok
  rcases hres : ValidateDSLFiles (u ++ v) with e | u2
  · exact ⟨e, rfl⟩
  · exfalso
    cases u2
    have hcnt2 := validateGo_ok_counts (u ++ v) [] 0 hres
    rw [brOpens_append, brCloses_append, brOpens_cons, brCloses_cons] at hcnt
    rw [brOpens_append, brCloses_append] at hcnt2
    simp only [List.length_nil] at hcnt hcnt2
    rcases Bool.or_eq_true_iff.mp (by simpa [isBracketCh] using hbr) with ho | hc
    · have hnc : isCloseBr b = false := isOpenBr_not_close ho
      simp only [ho, hnc, Bool.false_eq_true, if_true, if_false] at hcnt
      omega
    · have hno : isOpenBr b = false := isCloseBr_not_open hc
      simp only [hc, hno, Bool.false_eq_true, if_true, if_false] at hcnt
      omega

/-- Claim C5 (amended): for every well-bracketed source text the validator
succeeds, and removing any single bracket makes it fail (the reported
position, however, is not always at or before the removal point — see the
counterexample). -/
theorem C5_validator_amended {u v : List Char} {b : Char}
    (hb : Balanced (u ++ b :: v)) (hbr : isBracketCh b = true) :
    ValidateDSLFiles (u ++ b :: v) = Except.ok () ∧
      ∃ e, ValidateDSLFiles (u ++ v) = Except.error e :=
  ⟨validate_balanced hb, validate_removal_fails hb hbr⟩

/-- Witness for C5 (amended): the text `"(x)"` with the closing bracket
removed. -/
theorem C5_validator_amended_witness :
    ValidateDSLFiles ('(' :: 'x' :: ')' :: []) = Except.ok () ∧
      ∃ e, ValidateDSLFiles ('(' :: 'x' :: []) = Except.error e := by
  have hb : Balanced (('(' :: 'x' :: []) ++ ')' :: []) :=
    Balanced.wrap (o := '(') (c := ')') (s := 'x' :: []) (t := [])
      (by decide) (Balanced.other (by decide) Balanced.nil) Balanced.nil
  exact C5_validator_amended (u := '(' :: 'x' :: []) (v := []) (b := ')')
    hb (by decide)

/-- Counterexample to claim C5 as stated: `"(())"` is well-bracketed; after
removing the opening bracket at position 0 the validator fails at the
unmatched `')'` at position 2, which is after the removal point 0. -/
theorem C5_position_counterexample :
    Balanced ('(' :: '(' :: ')' :: ')' :: []) ∧
      ValidateDSLFiles ('(' :: ')' :: ')' :: []) =
        Except.error (.unmatched ')' 2) ∧
      ¬ (2 ≤ 0) := by
  refine ⟨?_, by rfl, by omega⟩
  exact Balanced.wrap (o := '(') (c := ')') (s := '(' :: ')' :: []) (t := [])
    (by decide)
    (Balanced.wrap (o := '(') (c := ')') (s := []) (t := []) (by decide)
      Balanced.nil Balanced.nil)
    Balanced.nil

/-! ### Comment stripping (`ParseRaw` line 124: `re.sub(r"//.*", "", CODE)`) -/

/-- Drop characters up to (excluding) the next newline: the span a `//`
comment removes (`.` in the regex does not match `\n`). -/
def dropToEol : List Char → List Char
  | [] => []
  | c :: rest => if c = '\n' then c :: rest else dropToEol rest

/-- State-threaded body of `stripComments`: when the flag is set the scan
is inside a comment and drops characters until the end of the line. -/
def stripCGo : Bool → List Char → List Char
  | _, [] => []
  | true, c :: rest => if c = '\n' then c :: stripCGo false rest else stripCGo true rest
  | false, '/' :: '/' :: rest => stripCGo true rest
  | false, c :: rest => c :: stripCGo false rest

/-- `re.sub(r"//.*", "", code)`: every `//` and the rest of its line are
deleted, with no regard to quoting. -/
def stripComments (s : List Char) : List Char := stripCGo false s

/-! ### Whitespace, words, numbers -/

/-- Python whitespace (`str.strip`, `str.isspace`, regex `\s`). -/
def isPySpace (c : Char) : Bool :=
  c = ' ' || c = '\t' || c = '\n' || c = '\r' || c = '\x0b' || c = '\x0c'

/-- Python `str.strip()`. -/
def pyStrip (s : List Char) : List Char :=
  ((s.dropWhile (fun c => isPySpace c)).reverse.dropWhile (fun c => isPySpace c)).reverse

/-- Regex `\w` (ASCII fragment, which covers the DSL's identifiers). -/
def isWordCh (c : Char) : Bool := c.isAlphanum || c = '_'

/-- Numeric value of a digit string. -/
def digitsToNat (ds : List Char) : Nat :=
  ds.foldl (fun a c => a * 10 + (c.toNat - 48)) 0

/-- Optional numeric sign at the head of a token. -/
def numSign (s : List Char) : Rat × List Char :=
  match s with
  | [] => (1, [])
  | c :: r => if c = '-' then (-1, r) else if c = '+' then (1, r) else (1, s)

/-- Optional fractional part `.digits` after the integer digits.  Returns
(dot present, fraction digits, rest). -/
def numFrac (r1 : List Char) : Bool × List Char × List Char :=
  match r1 with
  | [] => (false, [], [])
  | c :: r =>
      if c = '.' then
        (true, r.takeWhile (fun ch => ch.isDigit), r.dropWhile (fun ch => ch.isDigit))
      else (false, [], r1)

/-- Optional exponent sign. -/
def numExpSign (r3 : List Char) : Int × List Char :=
  match r3 with
  | [] => (1, [])
  | c :: r => if c = '-' then (-1, r) else if c = '+' then (1, r) else (1, r3)

/-- Parse a Python numeric literal prefix: optional sign, digits, optional
fractional part, optional exponent.  Returns the value (int unless a dot or
exponent is present) and the rest of the input. -/
def parseNumTok (s : List Char) : Option (Value × List Char) :=
  let sg := numSign s
  let ip := sg.2.takeWhile (fun c => c.isDigit)
  let r1 := sg.2.dropWhile (fun c => c.isDigit)
  let fr := numFrac r1
  if ip.isEmpty && fr.2.1.isEmpty then Option.none
  else
    let mant : Rat := (digitsToNat ip : Rat) +
      (digitsToNat fr.2.1 : Rat) / ((10 : Rat) ^ fr.2.1.length)
    let plain : Option (Value × List Char) :=
      if fr.1 then some (.float (sg.1 * mant), fr.2.2)
      else some (.int ((if sg.1 < 0 then -1 else 1) * (digitsToNat ip : Int)), fr.2.2)
    match fr.2.2 with
    | c :: r3 =>
        if c = 'e' || c = 'E' then
          let es := numExpSign r3
          let ed := es.2.takeWhile (fun ch => ch.isDigit)
          let r5 := es.2.dropWhile (fun ch => ch.isDigit)
          if ed.isEmpty then Option.none
          else some (.float (sg.1 * mant * (10 : Rat) ^ (es.1 * (digitsToNat ed : Int))), r5)
        else plain
    | [] => plain

/-- Python `float(...)` on a trimmed token (used by the `%w`/`%h` branch of
`convert_value`); fails on malformed input like Python's `ValueError`. -/
def parseFloat (s : List Char) : Option Rat :=
  match parseNumTok (pyStrip s) with
  | some (.int n, []) => some (n : Rat)
  | some (.float q, []) => some q
  | _ => Option.none

/-! ### Python string literals (`ast.literal_eval`'s string grammar)

Single-character escapes (`\\ \' \" \a \b \f \n \r \t \v`), octal
escapes (1-3 digits), `\xNN`, `\uNNNN`, `\UNNNNNNNN` and
backslash-newline line continuation are decoded as Python does; an
unrecognised escape keeps the backslash (Python's behaviour), and a
malformed one (`\x` with fewer than 2 hex digits, short `\u`/`\U`) is a
`SyntaxError`, i.e. a failed scan.  Two deliberate boundaries of the
model, neither exercised by any theorem below: `\N{NAME}` escapes are
rejected rather than resolved through the Unicode name table, and a
`\u`/`\U` escape denoting a lone surrogate is rejected because Lean's
`Char` holds only Unicode scalar values, while Python's `str` would
carry the lone surrogate. -/

/-- Translation of a recognised single-character escape (octal digits and
`x`/`u`/`U`/`N` are handled by the scanner itself). -/
def escTranslate : Char → Option Char
  | '\\' => some '\\'
  | '\'' => some '\''
  | '"' => some '"'
  | 'a' => some (Char.ofNat 7)
  | 'b' => some (Char.ofNat 8)
  | 'f' => some (Char.ofNat 12)
  | 'n' => some '\n'
  | 'r' => some '\r'
  | 't' => some '\t'
  | 'v' => some (Char.ofNat 11)
  | _ => Option.none

/-- Value of a hex digit (code-point arithmetic: digits 48-57,
lowercase 97-102, uppercase 65-70). -/
def pyHexDigit? (c : Char) : Option Nat :=
  let n := c.toNat
  if 48 ≤ n && n ≤ 57 then some (n - 48)
  else if 97 ≤ n && n ≤ 102 then some (n - 87)
  else if 65 ≤ n && n ≤ 70 then some (n - 55)
  else Option.none

/-- Octal digit test. -/
def isOctDigit (c : Char) : Bool := '0' ≤ c && c ≤ '7'

/-- Value of an octal digit. -/
def octVal (c : Char) : Nat := c.toNat - '0'.toNat

/-- A Unicode scalar value (what Lean's `Char` can hold; Python
additionally allows lone surrogates, see the section comment). -/
def isValidScalar (n : Nat) : Bool :=
  n < 0xd800 || (0xe000 ≤ n && n ≤ 0x10ffff)

/-- Scan the body of a quoted literal (`q` is the delimiter); a raw newline
is illegal in a single-line Python literal. -/
def parseStrGo (q : Char) : List Char → List Char → Option (List Char × List Char)
  | _, [] => Option.none
  | acc, c :: rest =>
      if c = q then some (acc.reverse, rest)
      else if c = '\n' || c = '\r' then Option.none
      else if c = '\\' then
        match rest with
        | [] => Option.none
        | e :: rest2 =>
            if e = 'x' then
              match rest2 with
              | h1 :: h2 :: rest3 =>
                  (match pyHexDigit? h1, pyHexDigit? h2 with
                   | some a, some b =>
                       parseStrGo q (Char.ofNat (16 * a + b) :: acc) rest3
                   | _, _ => Option.none)
              | _ => Option.none
            else if e = 'u' then
              match rest2 with
              | h1 :: h2 :: h3 :: h4 :: rest3 =>
                  (match pyHexDigit? h1, pyHexDigit? h2, pyHexDigit? h3, pyHexDigit? h4 with
                   | some a, some b, some c2, some d =>
                       let n := ((a * 16 + b) * 16 + c2) * 16 + d
                       if isValidScalar n then
                         parseStrGo q (Char.ofNat n :: acc) rest3
                       else Option.none
                   | _, _, _, _ => Option.none)
              | _ => Option.none
            else if e = 'U' then
              match rest2 with
              | h1 :: h2 :: h3 :: h4 :: h5 :: h6 :: h7 :: h8 :: rest3 =>
                  (match pyHexDigit? h1, pyHexDigit? h2, pyHexDigit? h3, pyHexDigit? h4,
                        pyHexDigit? h5, pyHexDigit? h6, pyHexDigit? h7, pyHexDigit? h8 with
                   | some a, some b, some c2, some d,
                     some a2, some b2, some c3, some d2 =>
                       let n := ((((((a * 16 + b) * 16 + c2) * 16 + d) * 16
                         + a2) * 16 + b2) * 16 + c3) * 16 + d2
                       if isValidScalar n then
                         parseStrGo q (Char.ofNat n :: acc) rest3
                       else Option.none
                   | _, _, _, _, _, _, _, _ => Option.none)
              | _ => Option.none
            else if e = 'N' then Option.none
            else if isOctDigit e then
              match rest2 with
              | d2 :: d3 :: rest3 =>
                  if isOctDigit d2 && isOctDigit d3 then
                    parseStrGo q
                      (Char.ofNat (64 * octVal e + 8 * octVal d2 + octVal d3)
                        :: acc) rest3
                  else if isOctDigit d2 then
                    parseStrGo q (Char.ofNat (8 * octVal e + octVal d2) :: acc)
                      (d3 :: rest3)
                  else parseStrGo q (Char.ofNat (octVal e) :: acc)
                    (d2 :: d3 :: rest3)
              | [d2] =>
                  if isOctDigit d2 then
                    parseStrGo q (Char.ofNat (8 * octVal e + octVal d2) :: acc)
                      []
                  else parseStrGo q (Char.ofNat (octVal e) :: acc) [d2]
              | [] => parseStrGo q (Char.ofNat (octVal e) :: acc) []
            else if e = '\n' then parseStrGo q acc rest2
            else
              match escTranslate e with
              | some t => parseStrGo q (t :: acc) rest2
              | Option.none => parseStrGo q (e :: '\\' :: acc) rest2
      else parseStrGo q (c :: acc) rest

/-! ### Python literal expressions (`ast.literal_eval`)

`convert_value` calls the external `ast.literal_eval`; its grammar over
the literals the DSL uses (numbers, quoted strings, `True`/`False`/`None`,
tuples, lists, dicts with string keys, bare top-level tuples) is modelled
here.  Sets, complex numbers, digit underscores and non-string dict keys
are outside the modelled domain. -/

/-- Skip Python whitespace. -/
def skipWS (s : List Char) : List Char := s.dropWhile (fun c => isPySpace c)

/-- Implicit adjacent string-literal concatenation: after one literal,
as long as the next non-whitespace character opens another string
literal, its body is appended (`"a" 'b'` evaluates to `"ab"`). -/
def pyStrCat : Nat → List Char → List Char → Option (Value × List Char)
  | 0, _, _ => Option.none
  | fuel + 1, acc, s =>
      match skipWS s with
      | c :: rest =>
          if c = '\'' || c = '"' then
            match parseStrGo c [] rest with
            | some (cs, r) => pyStrCat fuel (acc ++ cs) r
            | Option.none => Option.none
          else some (.str (String.mk acc), s)
      | [] => some (.str (String.mk acc), s)

mutual
/-- Parse one literal expression, returning the value and the rest. -/
def pyLitExpr : Nat → List Char → Option (Value × List Char)
  | 0, _ => Option.none
  | fuel + 1, s =>
      match skipWS s with
      | [] => Option.none
      | c :: rest =>
          if c = '\'' || c = '"' then
            match parseStrGo c [] rest with
            | some (cs, r) => pyStrCat fuel cs r
            | Option.none => Option.none
          else if c = '[' then
            match pyLitElems fuel rest ']' with
            | some (xs, r) => some (.list xs, r)
            | Option.none => Option.none
          else if c = '(' then pyLitParen fuel rest
          else if c = '{' then pyLitDict fuel rest
          else if c.isAlpha || c = '_' then
            let w := (c :: rest).takeWhile (fun ch => isWordCh ch)
            let r := (c :: rest).dropWhile (fun ch => isWordCh ch)
            if w = "True".toList then some (.bool true, r)
            else if w = "False".toList then some (.bool false, r)
            else if w = "None".toList then some (Value.noneV, r)
            else Option.none
          else parseNumTok (c :: rest)

/-- Parse comma-separated expressions up to the closing character
(trailing comma allowed). -/
def pyLitElems : Nat → List Char → Char → Option (List Value × List Char)
  | 0, _, _ => Option.none
  | fuel + 1, s, close =>
      match skipWS s with
      | [] => Option.none
      | c :: rest =>
          if c = close then some ([], rest)
          else
            match pyLitExpr fuel s with
            | Option.none => Option.none
            | some (v, r) =>
                match skipWS r with
                | ',' :: r2 =>
                    match pyLitElems fuel r2 close with
                    | some (vs, r3) => some (v :: vs, r3)
                    | Option.none => Option.none
                | c2 :: r2 =>
                    if c2 = close then some ([v], r2) else Option.none
                | [] => Option.none

/-- Parse the inside of `( ... )`: a parenthesised expression or a tuple
(the single-element case requires a trailing comma). -/
def pyLitParen : Nat → List Char → Option (Value × List Char)
  | 0, _ => Option.none
  | fuel + 1, s =>
      match skipWS s with
      | [] => Option.none
      | c :: rest =>
          if c = ')' then some (.tuple [], rest)
          else
            match pyLitExpr fuel s with
            | Option.none => Option.none
            | some (v, r) =>
                match skipWS r with
                | ')' :: r2 => some (v, r2)
                | ',' :: r2 =>
                    match pyLitElems fuel r2 ')' with
                    | some (vs, r3) => some (.tuple (v :: vs), r3)
                    | Option.none => Option.none
                | _ => Option.none

/-- Parse the inside of `{ ... }`: a dict with string keys. -/
def pyLitDict : Nat → List Char → Option (Value × List Char)
  | 0, _ => Option.none
  | fuel + 1, s =>
      match skipWS s with
      | [] => Option.none
      | c :: rest =>
          if c = '}' then some (.dict [], rest)
          else
            match pyLitDictEntries fuel (c :: rest) with
            | some (xs, r) => some (.dict xs, r)
            | Option.none => Option.none

/-- Parse `key : value` dict entries up to `}` (trailing comma allowed). -/
def pyLitDictEntries : Nat → List Char → Option (List (String × Value) × List Char)
  | 0, _ => Option.none
  | fuel + 1, s =>
      match pyLitExpr fuel s with
      | some (.str k, r) =>
          (match skipWS r with
           | ':' :: r2 =>
               match pyLitExpr fuel r2 with
               | some (v, r3) =>
                   (match skipWS r3 with
                    | '}' :: r4 => some ([(k, v)], r4)
                    | ',' :: r4 =>
                        (match skipWS r4 with
                         | '}' :: r5 => some ([(k, v)], r5)
                         | _ =>
                             match pyLitDictEntries fuel r4 with
                             | some (xs, r5) => some ((k, v) :: xs, r5)
                             | Option.none => Option.none)
                    | _ => Option.none)
               | Option.none => Option.none
           | _ => Option.none)
      | _ => Option.none
end

/-- Remaining elements of a bare top-level tuple (`ast.literal_eval` of
`a, b, ...` without parentheses). -/
def pyLitElemsBare : Nat → List Char → List Value → Option (List Value)
  | 0, _, _ => Option.none
  | fuel + 1, s, acc =>
      match pyLitExpr fuel s with
      | Option.none => Option.none
      | some (v, r) =>
          match skipWS r with
          | [] => some (acc ++ [v])
          | ',' :: r2 =>
              (match skipWS r2 with
               | [] => some (acc ++ [v])
               | _ => pyLitElemsBare fuel r2 (acc ++ [v]))
          | _ => Option.none

/-- `ast.literal_eval` on a whole token: one expression — or a bare
top-level tuple `a, b, ...` — followed only by whitespace. -/
def pyLiteralEval (s : List Char) : Option Value :=
  let fuel := s.length + 1
  match pyLitExpr fuel s with
  | Option.none => Option.none
  | some (v, r) =>
      match skipWS r with
      | [] => some v
      | ',' :: r2 =>
          (match skipWS r2 with
           | [] => some (.tuple [v])
           | _ =>
               match pyLitElemsBare fuel r2 [v] with
               | some vs => some (.tuple vs)
               | Option.none => Option.none)
      | _ => Option.none

/-! ### `convert_value` (src/arcadeDSL.py lines 176-195) -/

/-- Regex `-?\d+` full match. -/
def matchIntRe (s : List Char) : Bool :=
  match s with
  | '-' :: ds => !ds.isEmpty && ds.all (fun c => c.isDigit)
  | ds => !ds.isEmpty && ds.all (fun c => c.isDigit)

/-- Value of a `-?\d+` token. -/
def intReVal (s : List Char) : Int :=
  match s with
  | '-' :: ds => -(digitsToNat ds : Int)
  | ds => (digitsToNat ds : Int)

/-- Regex `-?\d+\.\d+` full match. -/
def matchFloatRe (s : List Char) : Bool :=
  let body := match s with | '-' :: ds => ds | ds => ds
  let ip := body.takeWhile (fun c => c.isDigit)
  match body.dropWhile (fun c => c.isDigit) with
  | '.' :: fp => !ip.isEmpty && !fp.isEmpty && fp.all (fun c => c.isDigit)
  | _ => false

/-- Value of a `-?\d+\.\d+` token. -/
def floatReVal (s : List Char) : Rat :=
  let (sgn, body) : Rat × List Char := match s with | '-' :: ds => (-1, ds) | ds => (1, ds)
  let ip := body.takeWhile (fun c => c.isDigit)
  match body.dropWhile (fun c => c.isDigit) with
  | '.' :: fp => sgn * ((digitsToNat ip : Rat) + (digitsToNat fp : Rat) / (10 : Rat) ^ fp.length)
  | _ => 0

/-- Python `str.lower()` (ASCII fragment). -/
def toLowerList (s : List Char) : List Char := s.map (fun c => c.toLower)

/-- Python `s.endswith(suf)`. -/
def endsWith (s suf : List Char) : Bool := s.reverse.take suf.length = suf.reverse

/-- `convert_value`: percentage resolution against the viewport, then
`ast.literal_eval`, then keyword / int-regex / float-regex fallbacks, then
the raw string itself.  A malformed numeric prefix before `%w`/`%h` is an
error (Python's `float()` raises). -/
def convert_value (W H : Int) (raw : List Char) : Except Unit Value :=
  let value := pyStrip raw
  if endsWith value ('%' :: 'w' :: []) then
    match parseFloat (value.take (value.length - 2)) with
    | some q => Except.ok (.float ((W : Rat) * q / 100))
    | Option.none => Except.error ()
  else if endsWith value ('%' :: 'h' :: []) then
    match parseFloat (value.take (value.length - 2)) with
    | some q => Except.ok (.float ((H : Rat) * q / 100))
    | Option.none => Except.error ()
  else
    match pyLiteralEval value with
    | some v => Except.ok v
    | Option.none =>
        let low := toLowerList value
        if low = "true".toList then Except.ok (.bool true)
        else if low = "false".toList then Except.ok (.bool false)
        else if low = "none".toList then Except.ok Value.noneV
        else if matchIntRe value then Except.ok (.int (intReVal value))
        else if matchFloatRe value then Except.ok (.float (floatReVal value))
        else Except.ok (.str (String.mk value))

/-! ### Property-list parsing (`split_top_level_commas`, `split_kv`,
`parse_props`; src/arcadeDSL.py lines 128-207) -/

/-- `split_top_level_commas`: split on commas outside brackets and quotes.
A backslash inside a quote skips the following character; middle tokens are
kept even when empty, an empty tail is dropped; every token is stripped. -/
def stlcGo : List Char → Int → Int → Int → Option Char → List Char →
    List (List Char) → List (List Char)
  | [], _, _, _, _, acc, out =>
      let tail := pyStrip acc.reverse
      if tail.isEmpty then out else out ++ [tail]
  | c :: rest, dp, dk, db, some q, acc, out =>
      if c = '\\' then
        match rest with
        | [] =>
            let tail := pyStrip (c :: acc).reverse
            if tail.isEmpty then out else out ++ [tail]
        | c2 :: rest2 => stlcGo rest2 dp dk db (some q) (c2 :: c :: acc) out
      else if c = q then stlcGo rest dp dk db Option.none (c :: acc) out
      else stlcGo rest dp dk db (some q) (c :: acc) out
  | c :: rest, dp, dk, db, Option.none, acc, out =>
      if c = '\'' || c = '"' then stlcGo rest dp dk db (some c) (c :: acc) out
      else if c = '(' then stlcGo rest (dp + 1) dk db Option.none (c :: acc) out
      else if c = ')' then stlcGo rest (dp - 1) dk db Option.none (c :: acc) out
      else if c = '[' then stlcGo rest dp (dk + 1) db Option.none (c :: acc) out
      else if c = ']' then stlcGo rest dp (dk - 1) db Option.none (c :: acc) out
      else if c = '{' then stlcGo rest dp dk (db + 1) Option.none (c :: acc) out
      else if c = '}' then stlcGo rest dp dk (db - 1) Option.none (c :: acc) out
      else if c = ',' && dp = 0 && dk = 0 && db = 0 then
        stlcGo rest dp dk db Option.none [] (out ++ [pyStrip acc.reverse])
      else stlcGo rest dp dk db Option.none (c :: acc) out

/-- `split_top_level_commas` entry point. -/
def split_top_level_commas (s : List Char) : List (List Char) :=
  stlcGo s 0 0 0 Option.none [] []

/-- The index scan of `split_kv`: find the first `=` outside quotes.
(The `continue` on a backslash in the source skips no extra character.) -/
def splitKvGo : List Char → Option Char → List Char → Option (List Char × List Char)
  | [], _, _ => Option.none
  | c :: rest, some q, before =>
      if c = '\\' then splitKvGo rest (some q) (c :: before)
      else if c = q then splitKvGo rest Option.none (c :: before)
      else splitKvGo rest (some q) (c :: before)
  | c :: rest, Option.none, before =>
      if c = '\'' || c = '"' then splitKvGo rest (some c) (c :: before)
      else if c = '=' then some (before.reverse, rest)
      else splitKvGo rest Option.none (c :: before)

/-- `split_kv`: split a `key=value` token on the first unquoted `=`;
a missing `=` or an empty key raises `ValueError`. -/
def split_kv (tok : List Char) : Except Unit (List Char × List Char) :=
  match splitKvGo tok Option.none [] with
  | some (k, v) =>
      let key := pyStrip k
      if key.isEmpty then Except.error () else Except.ok (key, pyStrip v)
  | Option.none => Except.error ()

/-- `parse_props`: raw props text to an ordered property dict. -/
def parse_props (W H : Int) (rawProps : List Char) : Except Unit (List (String × Value)) :=
  if (pyStrip rawProps).isEmpty then Except.ok []
  else
    (split_top_level_commas rawProps).foldlM
      (fun props tok =>
        if tok.isEmpty then Except.ok props
        else do
          let kv ← split_kv tok
          let cv ← convert_value W H kv.2
          Except.ok (dictInsert props (String.mk kv.1) cv))
      []

/-! ### Nodes, styles, `parse_block` (src/arcadeDSL.py lines 211-295) -/

/-- A parsed DSL tree node (`{"type": ..., "props": ..., "children": ...}`). -/
structure Node where
  type : String
  props : List (String × Value)
  children : List Node
deriving Repr

/-- The style table `_styles`: keyed by the popped `name` property value
(Python dict keyed by value equality). -/
abbrev Styles := List (Value × List (String × Value))

/-- `_styles[k] = v` with Python value-equality on keys. -/
def stylesInsert (st : Styles) (k : Value) (v : List (String × Value)) : Styles :=
  match st with
  | [] => [(k, v)]
  | (k0, v0) :: rest =>
      if pyEq k0 k then (k0, v) :: rest else (k0, v0) :: stylesInsert rest k v

/-- `k in _styles` / `_styles[k]` with Python value-equality on keys. -/
def stylesGet? (st : Styles) (k : Value) : Option (List (String × Value)) :=
  match st with
  | [] => Option.none
  | (k0, v0) :: rest => if pyEq k0 k then some v0 else stylesGet? rest k

/-- Named-style application (lines 291-293): each style property is
`setdefault`-ed into the node's property map, so keys the node already
defines always win. -/
def applyStyleDefaults (props sp : List (String × Value)) : List (String × Value) :=
  sp.foldl (fun acc kv => dictSetdefault acc kv.1 kv.2) props

/-- The static part of the block regex
`^(\w+)\s*\((.*?)\)\s*(\{(.*)\})?$`: after the candidate closing paren,
whitespace then optionally a `{...}` group running to the end. -/
def shapeTail (s : List Char) : Option (Option (List Char)) :=
  let t := s.dropWhile (fun c => isPySpace c)
  match t with
  | [] => some Option.none
  | '{' :: u =>
      match u.getLast? with
      | some '}' => some (some u.dropLast)
      | _ => Option.none
  | _ => Option.none

/-- Lazy `(.*?)\)` search: the shortest prefix before a `)` whose suffix
matches `shapeTail`. -/
def findPropsSplit : List Char → Option (List Char × Option (List Char))
  | [] => Option.none
  | c :: rest =>
      if c = ')' then
        match shapeTail rest with
        | some ch => some ([], ch)
        | Option.none =>
            match findPropsSplit rest with
            | some (p, ch) => some (c :: p, ch)
            | Option.none => Option.none
      else
        match findPropsSplit rest with
        | some (p, ch) => some (c :: p, ch)
        | Option.none => Option.none

/-- The block regex match (line 218): identifier, raw props text, optional
raw children text. -/
def matchShape (block : List Char) : Option (String × List Char × Option (List Char)) :=
  let ident := block.takeWhile (fun c => isWordCh c)
  let rest := block.dropWhile (fun c => isWordCh c)
  if ident.isEmpty then Option.none
  else
    match rest.dropWhile (fun c => isPySpace c) with
    | '(' :: tail =>
        (match findPropsSplit tail with
         | some (props, ch) => some (String.mk ident, props, ch)
         | Option.none => Option.none)
    | _ => Option.none

/-- The balanced-span scan used for a child's `(...)` and `{...}` parts
(lines 258-283): quote- and escape-aware depth counting; stops after the
character that returns the depth to zero. -/
def spanScanGo (oc cc : Char) : List Char → Int → Option Char → List Char →
    List Char × List Char
  | [], _, _, acc => (acc, [])
  | c :: rest, depth, some q, acc =>
      if c = '\\' then
        match rest with
        | [] => (c :: acc, [])
        | c2 :: rest2 => spanScanGo oc cc rest2 depth (some q) (c2 :: c :: acc)
      else if c = q then spanScanGo oc cc rest depth Option.none (c :: acc)
      else spanScanGo oc cc rest depth (some q) (c :: acc)
  | c :: rest, depth, Option.none, acc =>
      if c = '\'' || c = '"' then
        if depth = 0 then (c :: acc, rest)
        else spanScanGo oc cc rest depth (some c) (c :: acc)
      else
        let depth2 := if c = oc then depth + 1 else if c = cc then depth - 1 else depth
        if depth2 = 0 then (c :: acc, rest)
        else spanScanGo oc cc rest depth2 Option.none (c :: acc)

/-- Balanced-span scan returning the consumed span and the rest. -/
def spanScan (oc cc : Char) (s : List Char) : List Char × List Char :=
  let r := spanScanGo oc cc s 0 Option.none []
  (r.1.reverse, r.2)

/-- Split the raw children text into child block spans (the manual scanner
of lines 245-287): identifier, mandatory `(...)` span (else a raised
`ValueError`), optional `{...}` span. -/
def childSpans : Nat → List Char → Except Unit (List (List Char))
  | 0, _ => Except.error ()
  | fuel + 1, s =>
      let s1 := s.dropWhile (fun c => isPySpace c)
      if s1.isEmpty then Except.ok []
      else
        let ident := s1.takeWhile (fun c => isWordCh c)
        let r1 := s1.dropWhile (fun c => isWordCh c)
        let wsA := r1.takeWhile (fun c => isPySpace c)
        let r2 := r1.dropWhile (fun c => isPySpace c)
        match r2 with
        | '(' :: _ =>
            let pr := spanScan '(' ')' r2
            let wsB := pr.2.takeWhile (fun c => isPySpace c)
            let r4 := pr.2.dropWhile (fun c => isPySpace c)
            match r4 with
            | '{' :: _ =>
                let br := spanScan '{' '}' r4
                (childSpans fuel br.2).map
                  (fun tl => pyStrip (ident ++ wsA ++ pr.1 ++ wsB ++ br.1) :: tl)
            | _ =>
                (childSpans fuel r4).map
                  (fun tl => pyStrip (ident ++ wsA ++ pr.1) :: tl)
        | _ => Except.error ()

/-- The line-by-line style-property parse (lines 231-239). -/
def styleLineFold (W H : Int) (sp : List (String × Value)) (lineRaw : List Char) :
    Except Unit (List (String × Value)) :=
  let line := pyStrip lineRaw
  if line.isEmpty then Except.ok sp
  else if line.take 2 = '/' :: '/' :: [] then Except.ok sp
  else if line.take 1 = '}' :: [] then Except.ok sp
  else if line.take 1 = '{' :: [] then Except.ok sp
  else if !line.contains '=' then Except.ok sp
  else do
    let key := line.takeWhile (fun c => c ≠ '=')
    let v := (line.dropWhile (fun c => c ≠ '=')).drop 1
    let cv ← convert_value W H (pyStrip v)
    Except.ok (dictInsert sp (String.mk (pyStrip key)) cv)

mutual
/-- `parse_block` (lines 211-295), with the style table threaded in place
of the Python global `_styles` and a fuel bound (one unit per parsed
block, so the source length is always enough).  Returns the updated style
table and the node (`Option.none` for style blocks, which register a
style and produce no node). -/
def parse_block : Nat → Int → Int → Styles → List Char →
    Except Unit (Styles × Option Node)
  | 0, _, _, _, _ => Except.error ()
  | fuel + 1, W, H, styles, blockRaw => do
      let block := pyStrip blockRaw
      match matchShape block with
      | Option.none => Except.error ()
      | some (nodeType, rawProps, rawChildren) => do
          let props ← parse_props W H rawProps
          if toLowerList nodeType.data = "style".toList then
            match dictGet? props "name" with
            | Option.none => Except.error ()
            | some styleName => do
                let props2 := (dictPop props "name").2
                let styleLines : List (List Char) :=
                  match rawChildren with
                  | some rc => if rc.isEmpty then [] else (pyStrip rc).splitOn '\n'
                  | Option.none => []
                let styleProps ← styleLines.foldlM (styleLineFold W H) []
                let styleProps2 := dictUpdate styleProps props2
                Except.ok (stylesInsert styles styleName styleProps2, Option.none)
          else do
            let spansAndKids ←
              match rawChildren with
              | some rc =>
                  if (pyStrip rc).isEmpty then Except.ok (styles, ([] : List Node))
                  else do
                    let spans ← childSpans ((pyStrip rc).length + 1) (pyStrip rc)
                    parse_child_list fuel W H styles spans []
              | Option.none => Except.ok (styles, [])
            let styles2 := spansAndKids.1
            let children := spansAndKids.2
            let popped := dictPop props "style_name"
            let props2 := popped.2
            let props3 :=
              match popped.1 with
              | some sv =>
                  if pyTruthy sv then
                    match stylesGet? styles2 sv with
                    | some sp => applyStyleDefaults props2 sp
                    | Option.none => props2
                  else props2
              | Option.none => props2
            Except.ok (styles2, some ⟨nodeType, props3, children⟩)

/-- The child loop of `parse_block` (lines 284-287): parse each child
span, skipping empty spans and style registrations. -/
def parse_child_list : Nat → Int → Int → Styles → List (List Char) → List Node →
    Except Unit (Styles × List Node)
  | 0, _, _, _, _, _ => Except.error ()
  | _ + 1, _, _, styles, [], acc => Except.ok (styles, acc)
  | fuel + 1, W, H, styles, cb :: tl, acc =>
      if cb.isEmpty then parse_child_list fuel W H styles tl acc
      else do
        let r ← parse_block fuel W H styles cb
        match r.2 with
        | some child => parse_child_list fuel W H r.1 tl (acc ++ [child])
        | Option.none => parse_child_list fuel W H r.1 tl acc
end

/-! ### Top-level block splitting and `ParseRaw` (lines 297-366) -/

/-- The top-level span scan (lines 313-338): parenthesis depth plus brace
depth counted only outside parentheses; stops after the `}` that closes
the outermost brace.  A block with no braces therefore runs to the end of
the input. -/
def topSpanGo : List Char → Int → Int → Option Char → List Char →
    List Char × List Char
  | [], _, _, _, acc => (acc, [])
  | c :: rest, pd, d, some q, acc =>
      if c = '\\' && !rest.isEmpty then
        match rest with
        | c2 :: rest2 => topSpanGo rest2 pd d (some q) (c2 :: c :: acc)
        | [] => (c :: acc, [])
      else if c = q then topSpanGo rest pd d Option.none (c :: acc)
      else topSpanGo rest pd d (some q) (c :: acc)
  | c :: rest, pd, d, Option.none, acc =>
      if c = '\'' || c = '"' then topSpanGo rest pd d (some c) (c :: acc)
      else if c = '(' then topSpanGo rest (pd + 1) d Option.none (c :: acc)
      else if c = ')' then topSpanGo rest (pd - 1) d Option.none (c :: acc)
      else if c = '{' && pd = 0 then topSpanGo rest pd (d + 1) Option.none (c :: acc)
      else if c = '}' && pd = 0 then
        if d - 1 = 0 then (c :: acc, rest)
        else topSpanGo rest pd (d - 1) Option.none (c :: acc)
      else topSpanGo rest pd d Option.none (c :: acc)

/-- Collect the top-level block texts (lines 299-342).  A position where
no `(` follows the identifier ends the collection (`break`). -/
def topBlocks : Nat → List Char → List (List Char)
  | 0, _ => []
  | fuel + 1, code =>
      let s1 := code.dropWhile (fun c => isPySpace c)
      if s1.isEmpty then []
      else
        let ident := s1.takeWhile (fun c => isWordCh c)
        let r1 := s1.dropWhile (fun c => isWordCh c)
        let wsA := r1.takeWhile (fun c => isPySpace c)
        let r2 := r1.dropWhile (fun c => isPySpace c)
        match r2 with
        | '(' :: _ =>
            let sp := topSpanGo r2 0 0 Option.none []
            let blockText := pyStrip (ident ++ wsA ++ sp.1.reverse)
            let tl := topBlocks fuel sp.2
            if blockText.isEmpty then tl else blockText :: tl
        | _ => []

/-- Merging of top-level parse results into the main tree
(lines 345-361): the first root stands alone; later roots wrap it in a
synthetic `container` unless it already is one, in which case they are
appended as further children. -/
def mergeTop (main : Option Node) (n : Node) : Option Node :=
  match main with
  | Option.none => some n
  | some m =>
      if m.type ≠ "container" then some ⟨"container", [], [m, n]⟩
      else some ⟨m.type, m.props, m.children ++ [n]⟩

/-- `ParseRaw` (lines 109-366): strip comments, split top-level blocks,
parse each, merge non-style roots.  `Option.none` models the `except`
branch (the Python function prints a traceback and returns `({}, {})`). -/
def ParseRaw (code : List Char) (W H : Int) : Option (Option Node × Styles) :=
  let code2 := pyStrip (stripComments code)
  let blocks := topBlocks (code2.length + 1) code2
  let r := blocks.foldlM
    (fun (acc : Styles × Option Node) bt => do
      let pr ← parse_block (code2.length + 1) W H acc.1 bt
      match pr.2 with
      | some n => Except.ok (pr.1, mergeTop acc.2 n)
      | Option.none => Except.ok (pr.1, acc.2))
    (([] : Styles), (Option.none : Option Node))
  match r with
  | Except.ok sm => some (sm.2, sm.1)
  | Except.error _ => Option.none

/-! ### Claim C7: named-style precedence -/

theorem dictGet?_append_left {α : Type} {d : List (String × α)} {k : String} {v : α}
    (h : dictGet? d k = some v) (e : List (String × α)) :
    dictGet? (d ++ e) k = some v := by
  induction d with
  | nil => simp [dictGet?] at h
  | cons hd tl ih =>
      obtain ⟨k0, v0⟩ := hd
      by_cases hk : k0 = k
      · simp [dictGet?, hk] at h ⊢
        exact h
      · simp [dictGet?, hk] at h ⊢
        exact ih h

theorem dictGet?_append_none {α : Type} {d : List (String × α)} {k : String}
    (h : dictGet? d k = Option.none) (e : List (String × α)) :
    dictGet? (d ++ e) k = dictGet? e k := by
  induction d with
  | nil => simp
  | cons hd tl ih =>
      obtain ⟨k0, v0⟩ := hd
      by_cases hk : k0 = k
      · simp [dictGet?, hk] at h
      · simp [dictGet?, hk] at h ⊢
        exact ih h

theorem dictGet?_setdefault_some {α : Type} {d : List (String × α)} {k : String} {v : α}
    (h : dictGet? d k = some v) (k2 : String) (w : α) :
    dictGet? (dictSetdefault d k2 w) k = some v := by
  unfold dictSetdefault
  cases hg : dictGet? d k2 with
  | some u => exact h
  | none => exact dictGet?_append_left h _

theorem dictGet?_setdefault_none {α : Type} {d : List (String × α)} {k : String}
    (h : dictGet? d k = Option.none) (k2 : String) (w : α) :
    dictGet? (dictSetdefault d k2 w) k = if k2 = k then some w else Option.none := by
  unfold dictSetdefault
  cases hg : dictGet? d k2 with
  | some u =>
      by_cases hk : k2 = k
      · subst hk
        rw [hg] at h
        exact absurd h (by simp)
      · simp [hk, h]
  | none =>
      by_cases hk : k2 = k
      · subst hk
        simp [dictGet?_append_none h, dictGet?]
      · simp [hk, dictGet?_append_none h, dictGet?]

/-- Keys the node already defines survive named-style application
unchanged. -/
theorem applyStyleDefaults_defined {props : List (String × Value)} {k : String}
    {v : Value} (h : dictGet? props k = some v) (sp : List (String × Value)) :
    dictGet? (applyStyleDefaults props sp) k = some v := by
  induction sp generalizing props with
  | nil => exact h
  | cons hd tl ih =>
      obtain ⟨k2, w⟩ := hd
      exact ih (dictGet?_setdefault_some h k2 w)

/-- Keys the node does not define receive the named style's (first) value
for that key. -/
theorem applyStyleDefaults_undefined {props : List (String × Value)} {k : String}
    (h : dictGet? props k = Option.none) (sp : List (String × Value)) :
    dictGet? (applyStyleDefaults props sp) k = dictGet? sp k := by
  induction sp generalizing props with
  | nil => simpa [applyStyleDefaults] using h
  | cons hd tl ih =>
      obtain ⟨k2, w⟩ := hd
      show dictGet? (applyStyleDefaults (dictSetdefault props k2 w) tl) k = _
      by_cases hk : k2 = k
      · subst hk
        have hset : dictGet? (dictSetdefault props k2 w) k2 = some w := by
          simpa using dictGet?_setdefault_none h k2 w
        rw [applyStyleDefaults_defined hset tl]
        simp [dictGet?]
      · have hset : dictGet? (dictSetdefault props k2 w) k = Option.none := by
          simpa [hk] using dictGet?_setdefault_none h k2 w
        rw [ih hset]
        simp [dictGet?, hk]

/-- Claim C7: named-style application never overrides a directly given
element property.  Concretely, parsing
`style(name="s"){ color=(1,0,0) }` then
`button(style_name="s", color=(0,1,0))` yields a button whose `color` is
`(0,1,0)` (the style's `(1,0,0)` is registered but not applied); in
general the style-application step (`_props.setdefault`, lines 291-293)
leaves every key the node defines unchanged and fills in only keys the
node lacks. -/
theorem C7_style_precedence :
    ParseRaw ("style(name=\"s\"){ color=(1,0,0) } button(style_name=\"s\", color=(0,1,0))".toList)
        800 600 =
      some (some ⟨"button", [("color", Value.tuple [Value.int 0, Value.int 1, Value.int 0])], []⟩,
        [(Value.str "s", [("color", Value.tuple [Value.int 1, Value.int 0, Value.int 0])])]) ∧
    (∀ (props sp : List (String × Value)) (k : String) (v : Value),
       dictGet? props k = some v →
       dictGet? (applyStyleDefaults props sp) k = some v) ∧
    (∀ (props sp : List (String × Value)) (k : String),
       dictGet? props k = Option.none →
       dictGet? (applyStyleDefaults props sp) k = dictGet? sp k) :=
  ⟨rfl,
   fun _ sp _ _ h => applyStyleDefaults_defined h sp,
   fun _ sp _ h => applyStyleDefaults_undefined h sp⟩

/-- Witness for C7's general parts at a concrete input: a defined `color`
survives style application, an undefined `width` is filled in. -/
theorem C7_style_precedence_witness :
    dictGet? (applyStyleDefaults [("color", Value.int 2)]
        [("color", Value.int 1), ("width", Value.int 9)]) "color" = some (Value.int 2) ∧
    dictGet? (applyStyleDefaults [("color", Value.int 2)]
        [("color", Value.int 1), ("width", Value.int 9)]) "width" =
      dictGet? [("color", Value.int 1), ("width", Value.int 9)] "width" :=
  ⟨C7_style_precedence.2.1 [("color", Value.int 2)]
      [("color", Value.int 1), ("width", Value.int 9)] "color" (Value.int 2) rfl,
   C7_style_precedence.2.2 [("color", Value.int 2)]
      [("color", Value.int 1), ("width", Value.int 9)] "width" rfl⟩

/-! ### Claim C8: multiple top-level roots -/

/-- A `container` head absorbs later roots as appended children. -/
theorem mergeTop_container_fold (rest : List Node) :
    ∀ (props : List (String × Value)) (kids : List Node),
      rest.foldl mergeTop (some ⟨"container", props, kids⟩) =
        some ⟨"container", props, kids ++ rest⟩ := by
  induction rest with
  | nil => intro props kids; simp
  | cons n tl ih =>
      intro props kids
      have hstep : mergeTop (some ⟨"container", props, kids⟩) n =
          some ⟨"container", props, kids ++ [n]⟩ := by
        simp [mergeTop]
      simp only [List.foldl_cons, hstep, ih]
      simp

/-- Claim C8 (amended): when the first non-style root is not itself a
`container` node, the merging step of `ParseRaw` wraps the roots in one
synthetic container whose children are exactly the roots in source order
(roots beyond the second are appended to that same container);
concretely, three top-level `group` blocks parse to one synthetic
container with the three groups as children.  (When the first root *is* a
`container`, later roots are appended into the user's container instead —
see the counterexample.) -/
theorem C8_multi_root_amended :
    (∀ (n0 : Node) (ns : List Node), n0.type ≠ "container" → ns ≠ [] →
       ns.foldl mergeTop (some n0) = some ⟨"container", [], n0 :: ns⟩) ∧
    ParseRaw ("group(a=1){} group(a=2){} group(a=3){}".toList) 800 600 =
      some (some ⟨"container", [],
        [⟨"group", [("a", Value.int 1)], []⟩,
         ⟨"group", [("a", Value.int 2)], []⟩,
         ⟨"group", [("a", Value.int 3)], []⟩]⟩, []) := by
  constructor
  · intro n0 ns h0 hne
    cases ns with
    | nil => exact absurd rfl hne
    | cons n1 tl =>
        have hstep : mergeTop (some n0) n1 = some ⟨"container", [], [n0, n1]⟩ := by
          simp [mergeTop, h0]
        simp only [List.foldl_cons, hstep, mergeTop_container_fold]
        simp
  · rfl

/-- Witness for C8 (amended) at a concrete input: two non-container
roots. -/
theorem C8_multi_root_amended_witness :
    [(⟨"button", [], []⟩ : Node)].foldl mergeTop (some ⟨"label", [], []⟩) =
      some ⟨"container", [], [⟨"label", [], []⟩, ⟨"button", [], []⟩]⟩ :=
  C8_multi_root_amended.1 ⟨"label", [], []⟩ [⟨"button", [], []⟩]
    (by simp) (by simp)

/-- Counterexample to claim C8 as stated: the source
`container(x=1){ label(y=2) } button(z=3)` has two non-style top-level
roots (a user-written `container` and a `button`), yet the returned root
is the user's container — its property map still holds `x=1` (a synthetic
container's would be empty) and its children are the inner `label`
followed by the appended `button`, not the two roots themselves. -/
theorem C8_counterexample :
    ParseRaw ("container(x=1){ label(y=2) } button(z=3)".toList) 800 600 =
      some (some ⟨"container", [("x", Value.int 1)],
        [⟨"label", [("y", Value.int 2)], []⟩, ⟨"button", [("z", Value.int 3)], []⟩]⟩, []) ∧
    [("x", Value.int 1)] ≠ ([] : List (String × Value)) :=
  ⟨rfl, by simp⟩

/-! ### Claim C10: quote-blind comment stripping -/

/-- The text contains the two-character sequence `//`. -/
def hasDS : List Char → Bool
  | [] => false
  | _ :: [] => false
  | a :: b :: rest => (a = '/' && b = '/') || hasDS (b :: rest)


theorem hasDS_cons_false {c : Char} {s : List Char} (h : hasDS (c :: s) = false) :
    hasDS s = false := by
  cases s with
  | nil => rfl
  | cons b r =>
      simp only [hasDS, Bool.or_eq_false_iff] at h
      exact h.2

theorem hasDS_append_right_false {a b : List Char} (h : hasDS (a ++ b) = false) :
    hasDS b = false := by
  induction a with
  | nil => exact h
  | cons c a2 ih => exact ih (hasDS_cons_false h)

theorem hasDS_append_left_false {a : List Char} (b : List Char)
    (h : hasDS (a ++ b) = false) : hasDS a = false := by
  induction a with
  | nil => rfl
  | cons c a2 ih =>
      cases a2 with
      | nil => rfl
      | cons d a3 =>
          simp only [List.cons_append, hasDS, Bool.or_eq_false_iff] at h ⊢
          exact ⟨h.1, ih h.2⟩

theorem hasDS_suffix_false {s r : List Char} (hsub : r <:+ s)
    (h : hasDS s = false) : hasDS r = false := by
  obtain ⟨t, ht⟩ := hsub
  exact hasDS_append_right_false (ht ▸ h)

theorem hasDS_prefix_false {s r : List Char} (hsub : r <+: s)
    (h : hasDS s = false) : hasDS r = false := by
  obtain ⟨t, ht⟩ := hsub
  exact hasDS_append_left_false t (ht ▸ h)

/-- Appending one character keeps `//`-freeness when it does not create a
slash pair at the seam. -/
theorem hasDS_snoc_false {xs : List Char} {x : Char} (h : hasDS xs = false)
    (hseam : x = '/' → xs.getLast? ≠ some '/') : hasDS (xs ++ [x]) = false := by
  induction xs with
  | nil => rfl
  | cons c tl ih =>
      cases tl with
      | nil =>
          simp only [List.cons_append, List.nil_append, hasDS, Bool.or_false]
          by_cases hx : x = '/'
          · have hcx := hseam hx
            simp only [List.getLast?_singleton] at hcx
            have hc : c ≠ '/' := fun hcc => hcx (by simp [hcc])
            simp [hx, hc]
          · simp [hx]
      | cons d tl2 =>
          simp only [List.cons_append, hasDS, Bool.or_eq_false_iff] at h ⊢
          refine ⟨h.1, ?_⟩
          have hlast : (d :: tl2).getLast? = (c :: d :: tl2).getLast? := by
            simp [List.getLast?_cons_cons]
          exact ih h.2 (fun hx => hlast ▸ hseam hx)

theorem hasDS_cons_ne {c : Char} (out : List Char) (hc : c ≠ '/') :
    hasDS (c :: out) = hasDS out := by
  cases out <;> simp [hasDS, hc]

theorem hasDS_cons_false_intro {c : Char} {out : List Char}
    (h1 : hasDS out = false) (h2 : c = '/' → out.head? ≠ some '/') :
    hasDS (c :: out) = false := by
  cases out with
  | nil => rfl
  | cons d r =>
      simp only [hasDS, Bool.or_eq_false_iff]
      refine ⟨?_, h1⟩
      by_cases hc : c = '/'
      · have hd : d ≠ '/' := by
          intro hdd
          exact h2 hc (by simp [hdd])
        simp [hc, hd]
      · simp [hc]

theorem stripCGo_comment (r : List Char) :
    stripCGo false ('/' :: '/' :: r) = stripCGo true r := rfl

theorem stripCGo_true_cons (c : Char) (rest : List Char) :
    stripCGo true (c :: rest) =
      if c = '\n' then c :: stripCGo false rest else stripCGo true rest := rfl

theorem stripCGo_false_cons_ne {c : Char} (hc : c ≠ '/') (rest : List Char) :
    stripCGo false (c :: rest) = c :: stripCGo false rest := by
  cases rest with
  | nil => simp [stripCGo, hc]
  | cons d r => simp [stripCGo, hc]

theorem stripCGo_false_slash_ne {d : Char} (hd : d ≠ '/') (r : List Char) :
    stripCGo false ('/' :: d :: r) = '/' :: stripCGo false (d :: r) := by
  simp [stripCGo, hd]

/-- Part (i) of C10, generalised over the comment-scanner state: the
stripped text never contains `//`. -/
theorem stripCGo_noDS :
    ∀ (n : Nat) (s : List Char), s.length ≤ n →
      hasDS (stripCGo false s) = false ∧ hasDS (stripCGo true s) = false := by
  intro n
  induction n with
  | zero =>
      intro s hs
      cases s with
      | nil => exact ⟨rfl, rfl⟩
      | cons c rest => simp at hs
  | succ n ih =>
      intro s hs
      cases s with
      | nil => exact ⟨rfl, rfl⟩
      | cons c rest =>
          have hlen : rest.length ≤ n := by
            simp only [List.length_cons] at hs
            omega
          have ihr := ih rest hlen
          constructor
          · by_cases hc : c = '/'
            · subst hc
              cases rest with
              | nil => rfl
              | cons d r =>
                  by_cases hd : d = '/'
                  · subst hd
                    rw [stripCGo_comment]
                    have hr : r.length ≤ n := by
                      simp only [List.length_cons] at hs
                      omega
                    exact (ih r hr).2
                  · rw [stripCGo_false_slash_ne hd]
                    refine hasDS_cons_false_intro ihr.1 ?_
                    intro _
                    rw [stripCGo_false_cons_ne hd]
                    simp [hd]
            · rw [stripCGo_false_cons_ne hc, hasDS_cons_ne _ hc]
              exact ihr.1
          · by_cases hc : c = '\n'
            · subst hc
              show hasDS ('\n' :: stripCGo false rest) = false
              rw [hasDS_cons_ne _ (by decide)]
              exact ihr.1
            · rw [stripCGo_true_cons, if_neg hc]
              exact ihr.2

/-- The stripped source text never contains `//`: everything from a `//`
on is gone before any lexical scanning. -/
theorem stripComments_noDS (s : List Char) : hasDS (stripComments s) = false :=
  (stripCGo_noDS s.length s le_rfl).1

/-- In-comment scanning equals stripping after dropping to the end of the
line. -/
theorem stripCGo_true_eq_dropToEol :
    ∀ (w : List Char), stripCGo true w = stripComments (dropToEol w) := by
  intro w
  induction w with
  | nil => rfl
  | cons c r ih =>
      by_cases hc : c = '\n'
      · subst hc
        show '\n' :: stripCGo false r = stripComments (dropToEol ('\n' :: r))
        have hdrop : dropToEol ('\n' :: r) = '\n' :: r := by simp [dropToEol]
        rw [hdrop]
        show _ = stripCGo false ('\n' :: r)
        rw [stripCGo_false_cons_ne (by decide) r]
      · rw [stripCGo_true_cons, if_neg hc]
        have hdrop : dropToEol (c :: r) = dropToEol r := by simp [dropToEol, hc]
        rw [hdrop, ih]

/-- Part (ii) of C10: the first `//` — wherever it occurs, quotes
included — and the rest of its line are deleted, leaving the prefix and
the stripped remainder of the following lines. -/
theorem stripComments_quote_blind :
    ∀ (u w : List Char), hasDS u = false → u.getLast? ≠ some '/' →
      stripComments (u ++ '/' :: '/' :: w) = u ++ stripComments (dropToEol w) := by
  intro u
  induction u with
  | nil =>
      intro w _ _
      show stripCGo false ('/' :: '/' :: w) = stripComments (dropToEol w)
      rw [stripCGo_comment, stripCGo_true_eq_dropToEol]
  | cons c u2 ih =>
      intro w hds hlast
      by_cases hc : c = '/'
      · subst hc
        cases u2 with
        | nil => exact absurd (by simp) hlast
        | cons d u3 =>
            have hd : d ≠ '/' := by
              intro hdd
              subst hdd
              simp [hasDS] at hds
            have hlast2 : (d :: u3).getLast? ≠ some '/' := by
              rwa [List.getLast?_cons_cons] at hlast
            have h2 := ih w (hasDS_cons_false hds) hlast2
            show stripCGo false ('/' :: d :: (u3 ++ '/' :: '/' :: w)) = _
            rw [stripCGo_false_slash_ne hd]
            have h2b : stripCGo false (d :: (u3 ++ '/' :: '/' :: w)) =
                (d :: u3) ++ stripComments (dropToEol w) := h2
            rw [h2b]
            rfl
      · show stripCGo false (c :: (u2 ++ '/' :: '/' :: w)) = _
        rw [stripCGo_false_cons_ne hc]
        have hlast2 : u2.getLast? ≠ some '/' := by
          cases u2 with
          | nil => simp
          | cons e u4 =>
              rwa [List.getLast?_cons_cons] at hlast
        have h2 : stripCGo false (u2 ++ '/' :: '/' :: w) =
            u2 ++ stripComments (dropToEol w) :=
          ih w (hasDS_cons_false hds) hlast2
        rw [h2]
        rfl

theorem hasDS_head_pair {a : Char} {l : List Char} (h : hasDS (a :: l) = false)
    (ha : a = '/') : l.head? ≠ some '/' := by
  intro hl
  cases l with
  | nil => simp at hl
  | cons b r =>
      simp only [List.head?_cons, Option.some.injEq] at hl
      simp [hasDS, ha, hl] at h

/-- Claim C10 (amended): comment stripping is quote-blind.  The
stripped text — all any later scanning step sees — never contains the
two-character sequence `//` (conjunct i), and the first `//`, even
inside a quoted string literal, is deleted together with the rest of its
line before any lexical scanning (conjunct ii; conjunct iii shows this
end-to-end on `label(text="a//b\n", x=1)`, whose quoted string is
mutilated by the deletion).  The claim's final consequence does not
follow and is dropped: a parsed string `Value` can still contain `//`,
because `ast.literal_eval` decodes escape sequences such as `\x2f\x2f`
and concatenates adjacent string literals, re-creating the two
characters from source text that never contains a literal `//` — see
the counterexample. -/
theorem C10_comment_stripping :
    (∀ s : List Char, hasDS (stripComments s) = false) ∧
    (∀ u w : List Char, hasDS u = false → u.getLast? ≠ some '/' →
        stripComments (u ++ '/' :: '/' :: w) = u ++ stripComments (dropToEol w)) ∧
    ParseRaw ("label(text=\"a//b\n\", x=1)".toList) 800 600 =
      some (some ⟨"label", [("text", Value.str "\"a\n\""), ("x", Value.int 1)], []⟩, []) :=
  ⟨stripComments_noDS, stripComments_quote_blind, rfl⟩

/-- Witness for C10's universally quantified part at a concrete input. -/
theorem C10_comment_stripping_witness :
    stripComments ('a' :: '/' :: '/' :: 'b' :: '\n' :: 'c' :: []) =
      'a' :: stripComments (dropToEol ('b' :: '\n' :: 'c' :: [])) :=
  C10_comment_stripping.2.1 ('a' :: []) ('b' :: '\n' :: 'c' :: [])
    (by rfl) (by simp)

/-- Counterexample to claim C10's conclusion as stated ("no parsed
string Value ever contains `//`"): the source `label(text="\x2f\x2f")`
contains no literal `//` anywhere — the solidi are written as `\x2f`
string escapes — so comment stripping deletes nothing, yet literal
evaluation decodes the escapes and the parsed `text` value is the
string `"//"`.  Adjacent string-literal concatenation gives a second
route: `"/" "/"` evaluates to `"//"`. -/
theorem C10_counterexample :
    hasDS ("label(text=\"\\x2f\\x2f\")".toList) = false ∧
    ParseRaw ("label(text=\"\\x2f\\x2f\")".toList) 800 600 =
      some (some ⟨"label", [("text", Value.str "//")], []⟩, []) ∧
    pyLiteralEval ("\"/\" \"/\"".toList) = some (Value.str "//") ∧
    hasDS ("//".toList) = true :=
  ⟨rfl, rfl, rfl, rfl⟩

/-! ### Dynamic-variable linking (`LinkDynamicVars`, src/arcadeDSL.py
lines 370-410)

Python's binding records hold direct references into the mutable tree;
the model addresses them instead: a `Target` names a dict by its path
(node path into the tree plus steps into nested container values), or an
index into the record/object heaps once materialised.  Python's `==` on
`target_dict` compares the referenced dict's current value, which the
model reproduces by looking the path up (`refMatches`). -/

/-- `target_key` of a binding: a Python string (dict key or attribute
name) or int (sequence index, used by the group carry-down). -/
inductive PyKey where
  | s (k : String)
  | i (n : Int)
deriving Repr, DecidableEq

/-- One step into a nested container value. -/
inductive Step where
  | key (k : String)
  | idx (n : Nat)
deriving Repr, DecidableEq

/-- The reference held in a binding's `target_dict`. -/
inductive Target where
  | node (np : List Nat) (vp : List Step)
  | store (vp : List Step)
  | recI (id : Nat)
  | obj (id : Nat)
  | refsL
  | noneT
deriving Repr, DecidableEq

/-- A binding (`{"target_dict": ..., "target_key": ..., "var_name": ...}`). -/
structure Ref where
  target : Target
  key : PyKey
  var : String
deriving Repr, DecidableEq

/-- Remove every occurrence of `<<` (Python `value.replace("<<", "")`). -/
def removeLtLt : List Char → List Char
  | [] => []
  | '<' :: '<' :: rest => removeLtLt rest
  | c :: rest => c :: removeLtLt rest

/-- Remove every occurrence of `>>`. -/
def removeGtGt : List Char → List Char
  | [] => []
  | '>' :: '>' :: rest => removeGtGt rest
  | c :: rest => c :: removeGtGt rest

/-- The text contains `<<`. -/
def hasLtLt : List Char → Bool
  | [] => false
  | _ :: [] => false
  | a :: b :: rest => (a = '<' && b = '<') || hasLtLt (b :: rest)

/-- The text contains `>>`. -/
def hasGtGt : List Char → Bool
  | [] => false
  | _ :: [] => false
  | a :: b :: rest => (a = '>' && b = '>') || hasGtGt (b :: rest)

/-- `value.replace("<<", "").replace(">>", "")`. -/
def stripMarks (s : String) : String :=
  String.mk (removeGtGt (removeLtLt s.data))

/-- `"<<" in value and ">>" in value`. -/
def hasMarks (s : String) : Bool := hasLtLt s.data && hasGtGt s.data

mutual
/-- `iterate_dict` over one dict's entries: nested dicts recurse, list
items that are dicts recurse, a string bearing both markers whose
stripped name equals the variable is nulled and recorded as a binding
against the containing dict (`mkT vp`).  Other values (tuples included)
are skipped, as in the source. -/
def linkDict (mkT : List Step → Target) (vp : List Step) (vkey : String) :
    List (String × Value) → List (String × Value) × List Ref
  | [] => ([], [])
  | (k, v) :: rest =>
      let hd := linkEntry mkT vp vkey k v
      let tl := linkDict mkT vp vkey rest
      ((k, hd.1) :: tl.1, hd.2 ++ tl.2)

/-- One dict entry of the link walk. -/
def linkEntry (mkT : List Step → Target) (vp : List Step) (vkey : String)
    (k : String) : Value → Value × List Ref
  | .dict sub =>
      let r := linkDict mkT (vp ++ [Step.key k]) vkey sub
      (.dict r.1, r.2)
  | .list xs =>
      let r := linkItems mkT (vp ++ [Step.key k]) vkey 0 xs
      (.list r.1, r.2)
  | .str sv =>
      if hasMarks sv && (stripMarks sv = vkey) then
        (Value.noneV, [⟨mkT vp, .s k, vkey⟩])
      else (.str sv, [])
  | v => (v, [])

/-- List items of the link walk: only dict items are entered. -/
def linkItems (mkT : List Step → Target) (vp : List Step) (vkey : String) :
    Nat → List Value → List Value × List Ref
  | _, [] => ([], [])
  | i, x :: xs =>
      let hd : Value × List Ref :=
        match x with
        | .dict sub =>
            let r := linkDict mkT (vp ++ [Step.idx i]) vkey sub
            (.dict r.1, r.2)
        | other => (other, [])
      let tl := linkItems mkT vp vkey (i + 1) xs
      (hd.1 :: tl.1, hd.2 ++ tl.2)
end

mutual
/-- Number of nodes of a tree (a sufficient recursion bound). -/
def nodeSize : Node → Nat
  | ⟨_, _, children⟩ => 1 + kidsSize children

/-- Recursion bound for a forest (one extra unit per child step). -/
def kidsSize : List Node → Nat
  | [] => 0
  | c :: cs => 1 + nodeSize c + kidsSize cs
end

mutual
/-- The link walk over a node: its `"props"` dict first, then the
children in order (the `"type"` string is scanned too in the source, but
the parser's `\w+` identifiers can never contain a `<` marker).  The
fuel argument only drives the recursion; `sizeOf` the node always
suffices. -/
def linkNode : Nat → List Nat → String → Node → Node × List Ref
  | 0, _, _, n => (n, [])
  | fuel + 1, np, vkey, n =>
      let pr := linkDict (Target.node np) [] vkey n.props
      let ch := linkKids fuel np 0 vkey n.children
      (⟨n.type, pr.1, ch.1⟩, pr.2 ++ ch.2)

/-- The link walk over a child list. -/
def linkKids : Nat → List Nat → Nat → String → List Node → List Node × List Ref
  | _, _, _, _, [] => ([], [])
  | 0, _, _, _, l => (l, [])
  | fuel + 1, np, i, vkey, c :: cs =>
      let r := linkNode fuel (np ++ [i]) vkey c
      let t := linkKids fuel np (i + 1) vkey cs
      (r.1 :: t.1, r.2 ++ t.2)
end

/-- The linked state: the (mutated) tree, the (mutated) variable store
(`PARSED_CODE["dynamic_vars"]`), and the binding list
(`PARSED_CODE["dynamic_refs"]`). -/
structure LTree where
  root : Node
  dynVars : List (String × Value)
  dynRefs : List Ref
deriving Repr

/-- Fetch the node at a child-index path. -/
def getNode : Node → List Nat → Option Node
  | n, [] => some n
  | n, i :: rest =>
      match n.children.get? i with
      | some c => getNode c rest
      | Option.none => Option.none

/-- Fetch the value at a step path inside a value. -/
def getValueAt : Value → List Step → Option Value
  | v, [] => some v
  | .dict d, .key k :: rest =>
      (match dictGet? d k with
       | some w => getValueAt w rest
       | Option.none => Option.none)
  | .list xs, .idx i :: rest =>
      (match xs.get? i with
       | some w => getValueAt w rest
       | Option.none => Option.none)
  | _, _ => Option.none

/-- Functionally write the value at a step path. -/
def setValueAt : Value → List Step → Value → Option Value
  | _, [], nv => some nv
  | .dict d, .key k :: rest, nv =>
      (match dictGet? d k with
       | some w =>
           (match setValueAt w rest nv with
            | some u => some (.dict (dictInsert d k u))
            | Option.none => Option.none)
       | Option.none => Option.none)
  | .list xs, .idx i :: rest, nv =>
      (match xs.get? i with
       | some w =>
           (match setValueAt w rest nv with
            | some u => some (.list (xs.set i u))
            | Option.none => Option.none)
       | Option.none => Option.none)
  | _, _, _ => Option.none

/-- Functionally rewrite the node at a child-index path. -/
def updateNode : Node → List Nat → (Node → Node) → Option Node
  | n, [], f => some (f n)
  | n, i :: rest, f =>
      (match n.children.get? i with
       | some c =>
           (match updateNode c rest f with
            | some c2 => some ⟨n.type, n.props, n.children.set i c2⟩
            | Option.none => Option.none)
       | Option.none => Option.none)

/-- Current value of the dict a target refers to (used both for the
re-walk of `dynamic_refs` and for `==` comparisons).  Record lists,
objects, the bindings list and `None` are not dicts, so comparisons
against a property map are `False` for them in Python. -/
def targetDict? (lt : LTree) : Target → Option (List (String × Value))
  | .node np vp =>
      (match getNode lt.root np with
       | some nd =>
           (match getValueAt (.dict nd.props) vp with
            | some (.dict d) => some d
            | _ => Option.none)
       | Option.none => Option.none)
  | .store vp =>
      (match getValueAt (.dict lt.dynVars) vp with
       | some (.dict d) => some d
       | _ => Option.none)
  | _ => Option.none

/-- Write back the dict a target refers to. -/
def setTargetDict (lt : LTree) (t : Target) (d : List (String × Value)) : LTree :=
  match t with
  | .node np vp =>
      (match getNode lt.root np with
       | some nd =>
           (match setValueAt (.dict nd.props) vp (.dict d) with
            | some (.dict props2) =>
                (match updateNode lt.root np
                    (fun n => ⟨n.type, props2, n.children⟩) with
                 | some root2 => ⟨root2, lt.dynVars, lt.dynRefs⟩
                 | Option.none => lt)
            | _ => lt)
       | Option.none => lt)
  | .store vp =>
      (match setValueAt (.dict lt.dynVars) vp (.dict d) with
       | some (.dict store2) => ⟨lt.root, store2, lt.dynRefs⟩
       | _ => lt)
  | _ => lt

/-- The re-walk of one recorded binding's target dict during
`iterate_dict`'s pass over `dynamic_refs`.  For trees produced by the
parser this never finds anything new (all matching values were already
nulled by the walk over `props`/`children`/`dynamic_vars`), but it is
performed faithfully. -/
def walkOneRef (vkey : String) (lt : LTree) (ref : Ref) : LTree :=
  match ref.target with
  | .node np vp =>
      (match targetDict? lt (.node np vp) with
       | some d =>
           let r := linkDict (Target.node np) vp vkey d
           let lt2 := setTargetDict lt (.node np vp) r.1
           ⟨lt2.root, lt2.dynVars, lt2.dynRefs ++ r.2⟩
       | Option.none => lt)
  | .store vp =>
      (match targetDict? lt (.store vp) with
       | some d =>
           let r := linkDict Target.store vp vkey d
           let lt2 := setTargetDict lt (.store vp) r.1
           ⟨lt2.root, lt2.dynVars, lt2.dynRefs ++ r.2⟩
       | Option.none => lt)
  | _ => lt

/-- The pass over the recorded bindings for one variable. -/
def walkRefList (vkey : String) : List Ref → LTree → LTree
  | [], lt => lt
  | ref :: rest, lt => walkRefList vkey rest (walkOneRef vkey lt ref)

/-- One store variable's full walk (one iteration of the loop at
lines 406-407): the tree (type/props/children), the stored variables
themselves, and the already-recorded bindings, nulling matching
placeholder strings and recording a binding against the containing
dict for each. -/
def linkStep (lt : LTree) (kv : String × Value) : LTree :=
  let r1 := linkNode (nodeSize lt.root) [] kv.1 lt.root
  let r2 := linkDict Target.store [] kv.1 lt.dynVars
  let lt2 : LTree := ⟨r1.1, r2.1, lt.dynRefs ++ r1.2 ++ r2.2⟩
  walkRefList kv.1 lt2.dynRefs lt2

/-- `LinkDynamicVars`: store the variables and an empty binding list on
the root, then run the walk for each store variable in order. -/
def LinkDynamicVars (root : Node) (store : List (String × Value)) : LTree :=
  store.foldl linkStep ⟨root, store, []⟩

/-! ### The builder (`CreateUIObjs`, src/arcadeDSL.py lines 414-689)

Python mutates a shared state: `OBJ_LIST` (a dict with int keys holding
the metadata records at `0..`, the bindings list at `-1` and the
variable store at `-2`), the created arcade objects, and the binding
dicts themselves.  The model threads an explicit `BState` instead:
created objects and metadata records live in indexed heaps, and
`OBJ_LIST` maps int keys to heap entries.  An arcade widget is modelled
as its kind plus its attribute dict (the constructor kwargs, later
mutated by `setattr`); no claim observes anything deeper.  Each call of
the Python function wraps its whole body in `try/except Exception`, so
an error inside one node's processing keeps all mutations made so far,
skips the rest of that node (including its children), and lets the
parent continue. -/

/-- `_props.get(k, dflt)`. -/
def dictGetD (d : List (String × Value)) (k : String) (dflt : Value) : Value :=
  (dictGet? d k).getD dflt

/-- Python int value of `int`/`bool` (for int arithmetic). -/
def Value.asInt? : Value → Option Int
  | .int n => some n
  | .bool b => some (if b then 1 else 0)
  | _ => Option.none

/-- `Value` is a float. -/
def Value.isFloat : Value → Bool
  | .float _ => true
  | _ => false

/-- Python `a - b` on modelled values (`TypeError` → `none`). -/
def pySub (a b : Value) : Option Value :=
  match a, b with
  | .float x, _ => (Value.asNum? b).map (fun y => Value.float (x - y))
  | _, .float y => (Value.asNum? a).map (fun x => Value.float (x - y))
  | _, _ =>
      match a.asInt?, b.asInt? with
      | some m, some n => some (.int (m - n))
      | _, _ => Option.none

/-- Python `a // b` (floor division; errors → `none`). -/
def pyFloorDiv (a b : Value) : Option Value :=
  match a, b with
  | .float x, _ =>
      (match Value.asNum? b with
       | some y => if y = 0 then Option.none else some (.float ((⌊x / y⌋ : Int) : Rat))
       | Option.none => Option.none)
  | _, .float y =>
      (match Value.asNum? a with
       | some x => if y = 0 then Option.none else some (.float ((⌊x / y⌋ : Int) : Rat))
       | Option.none => Option.none)
  | _, _ =>
      match a.asInt?, b.asInt? with
      | some m, some n => if n = 0 then Option.none else some (.int (Int.fdiv m n))
      | _, _ => Option.none

/-- The `anchor == "center"` adjustment shared by the widget branches:
`kwargs["x"] -= kwargs["width"] // 2` and likewise for `y`/`height`
(a `TypeError` in the arithmetic aborts the node). -/
def adjustCenter (p kw : List (String × Value)) :
    Except Unit (List (String × Value)) :=
  match dictGet? p "anchor" with
  | Option.none => Except.ok kw
  | some av =>
      if pyEq av (.str "center") then
        match dictGet? kw "x", dictGet? kw "width",
              dictGet? kw "y", dictGet? kw "height" with
        | some x, some w, some y, some h =>
            (match pyFloorDiv w (.int 2), pyFloorDiv h (.int 2) with
             | some hw, some hh =>
                 (match pySub x hw, pySub y hh with
                  | some x2, some y2 =>
                      Except.ok (dictInsert (dictInsert kw "x" x2) "y" y2)
                  | _, _ => Except.error ())
             | _, _ => Except.error ())
        | _, _, _, _ => Except.error ()
      else Except.ok kw

/-- The default colour tuple `(0,0,0,255)`. -/
def blackOpaque : Value :=
  .tuple [.int 0, .int 0, .int 0, .int 255]

/-- `_label_kwargs` (lines 444-463). -/
def labelKwargs (p : List (String × Value)) :
    Except Unit (List (String × Value)) :=
  adjustCenter p
    [("text", pyOr (dictGetD p "text" (.str "")) (.str "Empty")),
     ("x", pyOr (dictGetD p "x" (.int 0)) (.int 0)),
     ("y", pyOr (dictGetD p "y" (.int 0)) (.int 0)),
     ("width", pyOr (dictGetD p "width" (.int 0)) (.int 0)),
     ("height", pyOr (dictGetD p "height" (.int 0)) (.int 0)),
     ("font_name", pyOr (dictGetD p "font_name" (.str "Arial")) (.str "Arial")),
     ("font_size", pyOr (dictGetD p "font_size" (.int 14)) (.int 14)),
     ("text_color", pyOr (dictGetD p "text_color" blackOpaque) blackOpaque),
     ("bold", pyOr (dictGetD p "bold" (.bool false)) (.bool false)),
     ("italic", pyOr (dictGetD p "italic" (.bool false)) (.bool false)),
     ("align", pyOr (dictGetD p "anchor" (.str "center")) (.str "center")),
     ("multiline", pyOr (dictGetD p "multiline" (.bool false)) (.bool false))]

/-- `_button_kwargs` before style handling (lines 469-481). -/
def buttonKwargs (p : List (String × Value)) :
    Except Unit (List (String × Value)) :=
  adjustCenter p
    [("text", pyOr (dictGetD p "text" (.str "")) (.str "Empty")),
     ("x", pyOr (dictGetD p "x" (.int 0)) (.int 0)),
     ("y", pyOr (dictGetD p "y" (.int 0)) (.int 0)),
     ("width", pyOr (dictGetD p "width" (.int 100)) (.int 0)),
     ("height", pyOr (dictGetD p "height" (.int 100)) (.int 0))]

/-- The keys `UIFlatButton.UIStyle` accepts (line 504/524). -/
def validStyleKey (k : String) : Bool :=
  k = "font_size" || k = "font_name" || k = "font_color" ||
  k = "bg" || k = "border" || k = "border_width"

/-- The `bg_color`/`border_color` renaming fold (lines 515-521). -/
def arcadeProps (named : List (String × Value)) : List (String × Value) :=
  named.foldl
    (fun acc kv =>
      if kv.1 = "bg_color" then dictInsert acc "bg" kv.2
      else if kv.1 = "border_color" then dictInsert acc "border" kv.2
      else dictInsert acc kv.1 kv.2)
    []

/-- A `UIStyle(**props)` object for all four states, modelled by its
kwargs dict. -/
def fourStates (bs : Value) : Value :=
  .dict [("normal", bs), ("hover", bs), ("press", bs), ("disabled", bs)]

/-- Button style handling (lines 484-532).  A dict-valued `style` prop
without any of the four state keys reaches line 505, which reads the
undefined names `arcade_props`/`valid_keys` — a `NameError` aborting the
node.  A string naming a known style builds a `UIStyle` from the
renamed, defaulted and filtered style props; an unknown style name
leaves the kwargs alone; anything else installs a default `UIStyle()`. -/
def buttonStyle (styles : Styles) (p kw : List (String × Value)) :
    Except Unit (List (String × Value)) :=
  match dictGet? p "style" with
  | some (.dict sd) =>
      if sd.any (fun kv =>
          kv.1 = "normal" || kv.1 = "hover" || kv.1 = "press" ||
          kv.1 = "disabled")
      then Except.ok kw
      else Except.error ()
  | some (.str s) =>
      (match stylesGet? styles (.str s) with
       | some named =>
           let ap := dictSetdefault
             (dictSetdefault (arcadeProps named) "font_name"
               (.tuple [.str "Arial"]))
             "border_width" (.int 2)
           let bs := Value.dict (ap.filter (fun kv => validStyleKey kv.1))
           Except.ok (dictInsert kw "style" (fourStates bs))
       | Option.none => Except.ok kw)
  | some _ =>
      Except.ok (dictInsert kw "style" (fourStates (.dict [])))
  | Option.none =>
      Except.ok (dictInsert kw "style" (fourStates (.dict [])))

/-- `_input_text_kwargs` (lines 538-553). -/
def inputTextKwargs (p : List (String × Value)) :
    Except Unit (List (String × Value)) :=
  adjustCenter p
    [("text", pyOr (dictGetD p "text" (.str "")) (.str "Empty")),
     ("x", pyOr (dictGetD p "x" (.int 0)) (.int 0)),
     ("y", pyOr (dictGetD p "y" (.int 0)) (.int 0)),
     ("width", pyOr (dictGetD p "width" (.int 200)) (.int 0)),
     ("height", pyOr (dictGetD p "height" (.int 30)) (.int 0)),
     ("font_name", pyOr (dictGetD p "font_name" (.str "Arial")) (.str "Arial")),
     ("font_size", pyOr (dictGetD p "font_size" (.int 14)) (.int 14)),
     ("text_color", pyOr (dictGetD p "text_color" blackOpaque) blackOpaque),
     ("multiline", pyOr (dictGetD p "multiline" (.bool false)) (.bool false))]

/-- `_text_area_kwargs` (lines 559-575); `scroll_speed` takes the plain
`get` default with no `or`. -/
def textAreaKwargs (p : List (String × Value)) :
    Except Unit (List (String × Value)) :=
  adjustCenter p
    [("text", pyOr (dictGetD p "text" (.str "")) (.str "Empty")),
     ("x", pyOr (dictGetD p "x" (.int 0)) (.int 0)),
     ("y", pyOr (dictGetD p "y" (.int 0)) (.int 0)),
     ("width", pyOr (dictGetD p "width" (.int 200)) (.int 0)),
     ("height", pyOr (dictGetD p "height" (.int 30)) (.int 0)),
     ("font_name", pyOr (dictGetD p "font_name" (.str "Arial")) (.str "Arial")),
     ("font_size", pyOr (dictGetD p "font_size" (.int 14)) (.int 14)),
     ("text_color", pyOr (dictGetD p "text_color" blackOpaque) blackOpaque),
     ("multiline", pyOr (dictGetD p "multiline" (.bool false)) (.bool false)),
     ("scroll_speed", dictGetD p "scroll_speed" (.float 10))]

/-- The transparent colour default `(0,0,0,0)`. -/
def clearColor : Value := .tuple [.int 0, .int 0, .int 0, .int 0]

/-- `_space_kwargs` (lines 581-592). -/
def spaceKwargs (p : List (String × Value)) :
    Except Unit (List (String × Value)) :=
  adjustCenter p
    [("x", pyOr (dictGetD p "x" (.int 0)) (.int 0)),
     ("y", pyOr (dictGetD p "y" (.int 0)) (.int 0)),
     ("width", pyOr (dictGetD p "width" (.int 100)) (.int 0)),
     ("height", pyOr (dictGetD p "height" (.int 100)) (.int 0)),
     ("color", pyOr (dictGetD p "color" clearColor) clearColor)]

/-- `_dummy_kwargs` (lines 598-604; no anchor adjustment). -/
def dummyKwargs (p : List (String × Value)) :
    Except Unit (List (String × Value)) :=
  Except.ok
    [("x", pyOr (dictGetD p "x" (.int 0)) (.int 0)),
     ("y", pyOr (dictGetD p "y" (.int 0)) (.int 0)),
     ("width", pyOr (dictGetD p "width" (.int 100)) (.int 0)),
     ("height", pyOr (dictGetD p "height" (.int 100)) (.int 0)),
     ("color", pyOr (dictGetD p "color" clearColor) clearColor)]

/-- `_sprite_widget_kwargs` (lines 609-615; no anchor adjustment). -/
def spriteWidgetKwargs (p : List (String × Value)) :
    Except Unit (List (String × Value)) :=
  Except.ok
    [("sprite", dictGetD p "sprite" .noneV),
     ("x", pyOr (dictGetD p "x" (.int 0)) (.int 0)),
     ("y", pyOr (dictGetD p "y" (.int 0)) (.int 0)),
     ("width", pyOr (dictGetD p "width" (.int 64)) (.int 0)),
     ("height", pyOr (dictGetD p "height" (.int 64)) (.int 0))]

/-- The widget-creation dispatch (lines 442-622): `some kwargs` when an
object is created, `none` for the container kinds, `ValueError` for an
unknown type. -/
def mkObj (styles : Styles) (ty : String) (p : List (String × Value)) :
    Except Unit (Option (List (String × Value))) :=
  if ty = "label" then (labelKwargs p).map some
  else if ty = "button" then do
    let kw ← buttonKwargs p
    let kw2 ← buttonStyle styles p kw
    pure (some kw2)
  else if ty = "input_text" then (inputTextKwargs p).map some
  else if ty = "text_area" then (textAreaKwargs p).map some
  else if ty = "space" then (spaceKwargs p).map some
  else if ty = "dummy" then (dummyKwargs p).map some
  else if ty = "sprite_widget" then (spriteWidgetKwargs p).map some
  else if ty = "group" || ty = "box_layout" || ty = "anchor_layout" ||
          ty = "container" then pure Option.none
  else Except.error ()

/-- An entry of `OBJ_LIST`: a metadata record (by heap id), the bindings
list (key `-1`) or the variable store (key `-2`). -/
inductive GEntry where
  | recE (id : Nat)
  | refsE
  | varsE
deriving Repr, DecidableEq

/-- A slot of a metadata record `[created_obj, name, tags]`: the opaque
arcade object (by heap id) or a plain value. -/
inductive Cell where
  | obj (id : Nat)
  | val (v : Value)
deriving Repr

/-- A metadata record (a Python 3-element list, index-assignable). -/
abbrev MetaRec := List Cell

/-- A created arcade widget: its kind plus attribute dict (constructor
kwargs, later mutated by `setattr`). -/
structure UIObj where
  kind : String
  attrs : List (String × Value)
deriving Repr

/-- `OBJ_LIST[k] = v` (int-keyed insertion-ordered dict). -/
def gInsert (g : List (Int × GEntry)) (k : Int) (v : GEntry) :
    List (Int × GEntry) :=
  match g with
  | [] => [(k, v)]
  | (k0, v0) :: rest =>
      if k0 = k then (k0, v) :: rest else (k0, v0) :: gInsert rest k v

/-- `OBJ_LIST[k]` lookup. -/
def gGet? (g : List (Int × GEntry)) (k : Int) : Option GEntry :=
  match g with
  | [] => Option.none
  | (k0, v0) :: rest => if k0 = k then some v0 else gGet? rest k

/-- The full builder state: the linked tree (with its variable store),
`OBJ_LIST`, the two heaps, the current bindings list (the value of
`OBJ_LIST[-1]`) and `GROUP_DYNAMIC_REFS`. -/
structure BState where
  lt : LTree
  glist : List (Int × GEntry)
  recs : List MetaRec
  objs : List UIObj
  refsCur : List Ref
  groupRefs : List Ref
deriving Repr

/-- Current referent of a binding's `target_dict`, as a value, when it
is a tree or store dict.  Objects, metadata records (Python lists), the
bindings list and `None` referents are never `==` to a property dict,
so the comparison sites treat them as `none`. -/
def targetValue? (lt : LTree) : Target → Option Value
  | .node np vp =>
      (match getNode lt.root np with
       | some nd => getValueAt (.dict nd.props) vp
       | Option.none => Option.none)
  | .store vp => getValueAt (.dict lt.dynVars) vp
  | _ => Option.none

/-- `_ref["target_dict"] == TREE["props"]` (line 637): Python `==`,
i.e. value equality of the referent against this node's property map. -/
def refMatches (lt : LTree) (t : Target) (props : List (String × Value)) :
    Bool :=
  match targetValue? lt t with
  | some v => pyEq v (.dict props)
  | Option.none => false

/-- `OBJ_LIST[len(OBJ_LIST)-3]` as a binding target: a metadata record,
the bindings list, or the variable store; `none` is a `KeyError`. -/
def gTarget (g : List (Int × GEntry)) (k : Int) : Option Target :=
  match gGet? g k with
  | some (.recE id) => some (.recI id)
  | some .refsE => some .refsL
  | some .varsE => some (.store [])
  | Option.none => Option.none

/-- The group branch of the retarget pass (lines 639-649): every group
ref with Python-equal `target_key` gets its `var_name` overwritten;
if none matched, a copy of the binding is appended. -/
def groupAbsorb (grefs : List Ref) (r : Ref) : List Ref :=
  if grefs.any (fun g => g.key = r.key) then
    grefs.map (fun g => if g.key = r.key then ⟨g.target, g.key, r.var⟩ else g)
  else grefs ++ [r]

/-- The retarget pass (lines 636-654) over the current bindings list:
each binding whose referent compares `==` to this node's props is
absorbed into `GROUP_DYNAMIC_REFS` (group nodes) or repointed — onto
`OBJ_LIST[len-3]` for the reserved `name`/`tags` keys (keeping its
string key), onto the created object (or `None` for containers)
otherwise.  A missing `OBJ_LIST` key is a `KeyError`: the remaining
bindings stay untouched and the flag aborts the node. -/
def retargetGo (lt : LTree) (props : List (String × Value)) (isGroup : Bool)
    (slot : Option Target) (created : Target) :
    List Ref → List Ref → List Ref × List Ref × Bool
  | grefs, [] => ([], grefs, false)
  | grefs, r :: rest =>
      if refMatches lt r.target props then
        if isGroup then
          let t := retargetGo lt props isGroup slot created (groupAbsorb grefs r) rest
          (r :: t.1, t.2.1, t.2.2)
        else if r.key = .s "name" || r.key = .s "tags" then
          match slot with
          | some tg =>
              let t := retargetGo lt props isGroup slot created grefs rest
              (⟨tg, r.key, r.var⟩ :: t.1, t.2.1, t.2.2)
          | Option.none => (r :: rest, grefs, true)
        else
          let t := retargetGo lt props isGroup slot created grefs rest
          (⟨created, r.key, r.var⟩ :: t.1, t.2.1, t.2.2)
      else
        let t := retargetGo lt props isGroup slot created grefs rest
        (r :: t.1, t.2.1, t.2.2)

/-- `_props.get(target_key, None)` with a `PyKey` key: int keys never
occur in a parsed (string-keyed) props dict, so they give the default. -/
def pkGetD (p : List (String × Value)) (k : PyKey) (dflt : Value) : Value :=
  match k with
  | .s s => dictGetD p s dflt
  | .i _ => dflt

/-- The group carry-down (lines 657-673) at a non-group node: for every
group binding whose key the merged props leave falsy, append a fresh
child binding — onto `OBJ_LIST[len-3]` at int index 1/2 for
`name`/`tags`, onto the created object (or `None`) at the original key
otherwise.  Returns the appended bindings and the `KeyError` flag. -/
def carryGo (slot : Option Target) (created : Target)
    (merged : List (String × Value)) : List Ref → List Ref × Bool
  | [] => ([], false)
  | g :: gs =>
      if pyTruthy (pkGetD merged g.key .noneV) then
        carryGo slot created merged gs
      else if g.key = .s "name" || g.key = .s "tags" then
        match slot with
        | some tg =>
            let t := carryGo slot created merged gs
            (⟨tg, .i (if g.key = .s "name" then 1 else 2), g.var⟩ :: t.1, t.2)
        | Option.none => ([], true)
      else
        let t := carryGo slot created merged gs
        (⟨created, g.key, g.var⟩ :: t.1, t.2)

mutual
/-- One `CreateUIObjs` call (lines 414-689) on a node.  Stages in source
order: merge parent props, create the widget and store its metadata
record at key `len(OBJ_LIST)-2`, install the bindings list and store at
keys `-1`/`-2` when this is the root (`ROOT == TREE` holds exactly at
the root call: only the root dict carries the two extra keys), retarget
matching bindings, carry group bindings down (non-group) or absorb and
then drop this group's own bindings (group), and recurse into the
children.  An error leaves the state mutated so far and skips the rest
of the node, as the per-call `try/except` does. -/
def createNode : Nat → Styles → List (String × Value) → Bool → BState →
    Node → BState
  | 0, _, _, _, σ, _ => σ
  | fuel + 1, styles, parentProps, isRoot, σ, n =>
      let merged := dictUpdate parentProps n.props
      match mkObj styles n.type merged with
      | .error _ => σ
      | .ok kwOpt =>
        let p1 : BState × Target :=
          match kwOpt with
          | some kw =>
              let oid := σ.objs.length
              let rid := σ.recs.length
              let rec0 : MetaRec :=
                [Cell.obj oid,
                 Cell.val (dictGetD merged "name" (.str "")),
                 Cell.val (dictGetD merged "tags" (.list []))]
              ({σ with
                  objs := σ.objs ++ [⟨n.type, kw⟩],
                  recs := σ.recs ++ [rec0],
                  glist := gInsert σ.glist ((σ.glist.length : Int) - 2)
                    (.recE rid)},
               Target.obj oid)
          | Option.none => (σ, Target.noneT)
        let σ1 := p1.1
        let σ2 :=
          if isRoot then
            {σ1 with
               glist := gInsert (gInsert σ1.glist (-1) .refsE) (-2) .varsE,
               refsCur := σ1.lt.dynRefs}
          else σ1
        let slot := gTarget σ2.glist ((σ2.glist.length : Int) - 3)
        let isGroup := n.type = "group"
        let rt := retargetGo σ2.lt n.props isGroup slot p1.2
          σ2.groupRefs σ2.refsCur
        let σ3 := {σ2 with refsCur := rt.1, groupRefs := rt.2.1}
        if rt.2.2 then σ3
        else if isGroup then
          let cleaned := σ3.refsCur.filter
            (fun r => !refMatches σ3.lt r.target n.props)
          let σ4 := {σ3 with refsCur := cleaned}
          createKids fuel styles merged σ4 n.children
        else
          let cr := carryGo slot p1.2 merged σ3.groupRefs
          let σ4 := {σ3 with refsCur := σ3.refsCur ++ cr.1}
          if cr.2 then σ4
          else createKids fuel styles merged σ4 n.children

/-- The child loop (lines 682-683). -/
def createKids : Nat → Styles → List (String × Value) → BState →
    List Node → BState
  | _, _, _, σ, [] => σ
  | 0, _, _, σ, _ => σ
  | fuel + 1, styles, pp, σ, c :: cs =>
      createKids fuel styles pp (createNode fuel styles pp false σ c) cs
end

/-- A public `CreateUIObjs(tree, styles)` call: fresh `PARENT_PROPS`,
`ROOT=None` (so the root test holds at this call) and fresh
`GROUP_DYNAMIC_REFS`, but `OBJ_LIST` and the object/record heaps carried
over from earlier calls — the mutable default argument persists across
calls of the Python function. -/
def CreateUIObjsTop (lt : LTree) (styles : Styles)
    (glist0 : List (Int × GEntry)) (recs0 : List MetaRec)
    (objs0 : List UIObj) : BState :=
  createNode (nodeSize lt.root) styles [] true
    ⟨lt, glist0, recs0, objs0, [], []⟩ lt.root

/-! ### The update engine (`UpdateVars`, src/arcadeDSL.py lines 693-708)

`UpdateVars(DATA)` iterates `DATA[-1]` (the bindings list) and writes
`DATA[-2][var_name]` (the store value) into the binding's target —
index assignment when the target is a dict or list, `setattr`
otherwise.  The whole loop sits in one `try/except`, so the first
exception keeps the writes made so far and skips the rest.  In every
pipeline state `OBJ_LIST[-1]`/`OBJ_LIST[-2]` are the current bindings
list and the variable store, which the model reads directly. -/

/-- Python sequence index resolution for a list of length `L`
(negative indices wrap; out of range is an `IndexError`). -/
def pyWrapIdx (L : Nat) (n : Int) : Option Nat :=
  if 0 ≤ n then
    (if n < (L : Int) then some n.toNat else Option.none)
  else
    (if 0 ≤ n + (L : Int) then some (n + (L : Int)).toNat else Option.none)

/-- One binding's write (lines 702-705).  A missing variable is a
`KeyError` on `DATA[-2][var_name]`, raised before the write.  A record
(Python list) target with a string key and an object target with an int
key are `TypeError`s; a `None` target is an `AttributeError`; writes
through `refsL` would replace a binding in the list being iterated with
a plain value, which the typed model cannot represent — no pipeline
state of the claims produces such a binding, and the model reports the
error it would become. -/
def applyRef (σ : BState) (r : Ref) : Except Unit BState :=
  match dictGet? σ.lt.dynVars r.var with
  | Option.none => Except.error ()
  | some v =>
      match r.target, r.key with
      | .obj id, .s k =>
          (match σ.objs.get? id with
           | some o => Except.ok {σ with
               objs := σ.objs.set id ⟨o.kind, dictInsert o.attrs k v⟩}
           | Option.none => Except.error ())
      | .obj _, .i _ => Except.error ()
      | .recI id, .i nn =>
          (match σ.recs.get? id with
           | some rec0 =>
               (match pyWrapIdx rec0.length nn with
                | some i => Except.ok {σ with
                    recs := σ.recs.set id (rec0.set i (Cell.val v))}
                | Option.none => Except.error ())
           | Option.none => Except.error ())
      | .recI _, .s _ => Except.error ()
      | .node np vp, .s k =>
          (match targetDict? σ.lt (.node np vp) with
           | some d => Except.ok {σ with
               lt := setTargetDict σ.lt (.node np vp) (dictInsert d k v)}
           | Option.none => Except.error ())
      | .node _ _, .i _ => Except.error ()
      | .store vp, .s k =>
          (match targetDict? σ.lt (.store vp) with
           | some d => Except.ok {σ with
               lt := setTargetDict σ.lt (.store vp) (dictInsert d k v)}
           | Option.none => Except.error ())
      | .store _, .i _ => Except.error ()
      | .refsL, _ => Except.error ()
      | .noneT, _ => Except.error ()

/-- The update loop with its surrounding `try/except`: the boolean flag
records whether an exception cut the pass short. -/
def updGo : List Ref → BState → BState × Bool
  | [], σ => (σ, false)
  | r :: rest, σ =>
      match applyRef σ r with
      | .ok σ2 => updGo rest σ2
      | .error _ => (σ, true)

/-- `UpdateVars` on a builder state. -/
def UpdateVars (σ : BState) : BState × Bool :=
  updGo σ.refsCur σ

/-! ### Claim C1: group propagation end-to-end -/

/-- Claim C1: group propagation end-to-end.  Parsing
`group(name="<<playerName>>"){ label(text="static") label(text="<<also>>") }`,
linking it against the store `{playerName: "Ann", also: "X"}` and
materializing the tree yields a resolved binding on each child's
metadata record for the propagated `name` key (neither child overrides
it) and the `text` binding on the second child's created object only;
one Update Engine call then writes name `"Ann"` into both records and
text `"X"` into the second label's object, while the first label keeps
its constructed text `"static"`. -/
theorem C1_group_propagation :
    ParseRaw ("group(name=\"<<playerName>>\")\x7b label(text=\"static\") label(text=\"<<also>>\") \x7d".toList)
        800 600 =
      some (some ⟨"group", [("name", .str "<<playerName>>")],
        [⟨"label", [("text", .str "static")], []⟩,
         ⟨"label", [("text", .str "<<also>>")], []⟩]⟩, []) ∧
    LinkDynamicVars
        ⟨"group", [("name", .str "<<playerName>>")],
          [⟨"label", [("text", .str "static")], []⟩,
           ⟨"label", [("text", .str "<<also>>")], []⟩]⟩
        [("playerName", .str "Ann"), ("also", .str "X")] =
      ⟨⟨"group", [("name", .noneV)],
         [⟨"label", [("text", .str "static")], []⟩,
          ⟨"label", [("text", .noneV)], []⟩]⟩,
       [("playerName", .str "Ann"), ("also", .str "X")],
       [⟨.node [] [], .s "name", "playerName"⟩,
        ⟨.node [1] [], .s "text", "also"⟩]⟩ ∧
    (let σ := CreateUIObjsTop
        ⟨⟨"group", [("name", .noneV)],
           [⟨"label", [("text", .str "static")], []⟩,
            ⟨"label", [("text", .noneV)], []⟩]⟩,
         [("playerName", .str "Ann"), ("also", .str "X")],
         [⟨.node [] [], .s "name", "playerName"⟩,
          ⟨.node [1] [], .s "text", "also"⟩]⟩
        [] [] [] []
     σ.refsCur = [⟨.obj 1, .s "text", "also"⟩,
                  ⟨.recI 0, .i 1, "playerName"⟩,
                  ⟨.recI 1, .i 1, "playerName"⟩] ∧
     (σ.objs.map fun o => dictGet? o.attrs "text") =
        [some (.str "static"), some (.str "Empty")] ∧
     (UpdateVars σ).2 = false ∧
     (UpdateVars σ).1.recs =
        [[.obj 0, .val (.str "Ann"), .val (.list [])],
         [.obj 1, .val (.str "Ann"), .val (.list [])]] ∧
     ((UpdateVars σ).1.objs.map fun o => dictGet? o.attrs "text") =
        [some (.str "static"), some (.str "X")]) := by
  exact ⟨rfl, rfl, rfl, rfl, rfl, rfl, rfl⟩

/-! ### Claim C2: retarget matching is value equality, not identity -/

/-- Counterexample to claim C2 as stated: after linking, the two sibling
labels carry the *value-equal* property maps `{text: None}` although they
are distinct nodes (paths `[0]` and `[1]`).  At the first label the
retarget pass repoints BOTH pending bindings — the second label's
binding matches by Python `==` although its recorded target is a
different node's map — so both bindings end on object 0 and object 1 is
never bound.  Under identity matching the second binding would have
stayed pending at the first label. -/
theorem C2_counterexample :
    ParseRaw ("container(x=1)\x7b label(text=\"<<v>>\") label(text=\"<<v>>\") \x7d".toList)
        800 600 =
      some (some ⟨"container", [("x", .int 1)],
        [⟨"label", [("text", .str "<<v>>")], []⟩,
         ⟨"label", [("text", .str "<<v>>")], []⟩]⟩, []) ∧
    (let lt := LinkDynamicVars
        ⟨"container", [("x", .int 1)],
          [⟨"label", [("text", .str "<<v>>")], []⟩,
           ⟨"label", [("text", .str "<<v>>")], []⟩]⟩
        [("v", .str "A")]
     lt.dynRefs = [⟨.node [0] [], .s "text", "v"⟩,
                   ⟨.node [1] [], .s "text", "v"⟩] ∧
     (CreateUIObjsTop lt [] [] [] []).refsCur =
       [⟨.obj 0, .s "text", "v"⟩, ⟨.obj 0, .s "text", "v"⟩] ∧
     (CreateUIObjsTop lt [] [] [] []).objs.length = 2) ∧
    Target.node [0] [] ≠ Target.node [1] [] := by
  refine ⟨rfl, ⟨rfl, rfl, rfl⟩, ?_⟩
  decide

/-- Claim C2 (amended): during materialization the retarget pass selects
a still-pending binding at a node exactly when the binding's recorded
target *currently compares Python-`==` (value-equal) to the node's own
property map* — identity plays no role.  For a non-group node whose
`OBJ_LIST[len-3]` slot resolves, the pass is positional: each binding
whose referent is value-equal to the props is repointed (onto the slot
for the reserved `name`/`tags` keys, onto the created target otherwise)
and every other binding is returned unchanged, with the group list and
error flag untouched.  A binding recorded against a different node whose
property map happens to be value-equal is therefore retargeted here too
(see the counterexample). -/
theorem C2_retarget_value_match (lt : LTree) (props : List (String × Value))
    (slot created : Target) :
    ∀ (refs grefs : List Ref),
      retargetGo lt props false (some slot) created grefs refs =
        (refs.map (fun r =>
          if refMatches lt r.target props then
            (if r.key = .s "name" || r.key = .s "tags" then
              (⟨slot, r.key, r.var⟩ : Ref)
            else ⟨created, r.key, r.var⟩)
          else r), grefs, false) := by
  intro refs
  induction refs with
  | nil => intro grefs; rfl
  | cons r rest ih =>
      intro grefs
      by_cases hm : refMatches lt r.target props
      · by_cases hk : (r.key = PyKey.s "name" || r.key = PyKey.s "tags") = true
        · simp [retargetGo, hm, hk, ih]
          rw [if_pos (by simpa using hk)]
        · simp [retargetGo, hm, hk, ih]
          rw [if_neg (by simpa using hk)]
      · simp [retargetGo, hm, ih]

/-! ### Claim C3: no unknown-variable validation in the linker -/

mutual
/-- Size of a value (induction measure for the nested recursion of the
link walk). -/
def valSize : Value → Nat
  | .list xs => 1 + valListSize xs
  | .tuple xs => 1 + valListSize xs
  | .dict d => 1 + valDictSize d
  | _ => 1

/-- Size of a list of values. -/
def valListSize : List Value → Nat
  | [] => 0
  | x :: xs => 1 + valSize x + valListSize xs

/-- Size of a dict. -/
def valDictSize : List (String × Value) → Nat
  | [] => 0
  | (_, v) :: rest => 1 + valSize v + valDictSize rest
end

theorem valSize_pos (v : Value) : 1 ≤ valSize v := by
  cases v <;> simp [valSize]

/-- Every binding the dict walk records carries the variable name being
linked. -/
theorem linkVars_bound : ∀ N : Nat,
    (∀ (mkT : List Step → Target) (vp : List Step) (vkey : String)
       (d : List (String × Value)), valDictSize d ≤ N →
       ∀ r ∈ (linkDict mkT vp vkey d).2, r.var = vkey) ∧
    (∀ (mkT : List Step → Target) (vp : List Step) (vkey k : String)
       (v : Value), valSize v ≤ N →
       ∀ r ∈ (linkEntry mkT vp vkey k v).2, r.var = vkey) ∧
    (∀ (mkT : List Step → Target) (vp : List Step) (vkey : String)
       (i : Nat) (xs : List Value), valListSize xs ≤ N →
       ∀ r ∈ (linkItems mkT vp vkey i xs).2, r.var = vkey) := by
  intro N
  induction N with
  | zero =>
      refine ⟨?_, ?_, ?_⟩
      · intro mkT vp vkey d hd r hr
        cases d with
        | nil => simp [linkDict] at hr
        | cons kv rest =>
            cases kv with
            | mk k v =>
                exfalso
                have := valSize_pos v
                simp [valDictSize] at hd
      · intro mkT vp vkey k v hv r hr
        exfalso
        have := valSize_pos v
        omega
      · intro mkT vp vkey i xs hxs r hr
        cases xs with
        | nil => simp [linkItems] at hr
        | cons x t =>
            exfalso
            simp [valListSize] at hxs
  | succ N ih =>
      obtain ⟨ihD, ihE, ihI⟩ := ih
      refine ⟨?_, ?_, ?_⟩
      · intro mkT vp vkey d hd r hr
        cases d with
        | nil => simp [linkDict] at hr
        | cons kv rest =>
            cases kv with
            | mk k v =>
                simp only [linkDict] at hr
                simp only [valDictSize] at hd
                rcases List.mem_append.mp hr with h1 | h2
                · exact ihE mkT vp vkey k v (by omega) r h1
                · exact ihD mkT vp vkey rest (by omega) r h2
      · intro mkT vp vkey k v hv r hr
        cases v with
        | dict sub =>
            simp only [linkEntry] at hr
            simp only [valSize] at hv
            exact ihD mkT (vp ++ [Step.key k]) vkey sub (by omega) r hr
        | list xs =>
            simp only [linkEntry] at hr
            simp only [valSize] at hv
            exact ihI mkT (vp ++ [Step.key k]) vkey 0 xs (by omega) r hr
        | str sv =>
            simp only [linkEntry] at hr
            split at hr
            · simp at hr
              rw [hr]
            · simp at hr
        | int n => simp [linkEntry] at hr
        | float q => simp [linkEntry] at hr
        | bool b => simp [linkEntry] at hr
        | noneV => simp [linkEntry] at hr
        | tuple xs => simp [linkEntry] at hr
      · intro mkT vp vkey i xs hxs r hr
        cases xs with
        | nil => simp [linkItems] at hr
        | cons x t =>
            simp only [valListSize] at hxs
            cases x with
            | dict sub =>
                simp only [linkItems] at hr
                simp only [valSize] at hxs
                rcases List.mem_append.mp hr with h1 | h2
                · exact ihD mkT (vp ++ [Step.idx i]) vkey sub (by omega) r h1
                · exact ihI mkT vp vkey (i + 1) t (by omega) r h2
            | int n =>
                simp only [linkItems, List.nil_append] at hr
                exact ihI mkT vp vkey (i + 1) t (by omega) r hr
            | float q =>
                simp only [linkItems, List.nil_append] at hr
                exact ihI mkT vp vkey (i + 1) t (by omega) r hr
            | bool b =>
                simp only [linkItems, List.nil_append] at hr
                exact ihI mkT vp vkey (i + 1) t (by omega) r hr
            | noneV =>
                simp only [linkItems, List.nil_append] at hr
                exact ihI mkT vp vkey (i + 1) t (by omega) r hr
            | str sv =>
                simp only [linkItems, List.nil_append] at hr
                exact ihI mkT vp vkey (i + 1) t (by omega) r hr
            | list ys =>
                simp only [linkItems, List.nil_append] at hr
                exact ihI mkT vp vkey (i + 1) t (by omega) r hr
            | tuple ys =>
                simp only [linkItems, List.nil_append] at hr
                exact ihI mkT vp vkey (i + 1) t (by omega) r hr

/-- Every binding the tree walk records carries the variable name being
linked. -/
theorem linkNodeVars : ∀ fuel : Nat,
    (∀ (np : List Nat) (vkey : String) (n : Node),
       ∀ r ∈ (linkNode fuel np vkey n).2, r.var = vkey) ∧
    (∀ (np : List Nat) (i : Nat) (vkey : String) (cs : List Node),
       ∀ r ∈ (linkKids fuel np i vkey cs).2, r.var = vkey) := by
  intro fuel
  induction fuel with
  | zero =>
      constructor
      · intro np vkey n r hr; simp [linkNode] at hr
      · intro np i vkey cs r hr; cases cs <;> simp [linkKids] at hr
  | succ f ih =>
      constructor
      · intro np vkey n r hr
        simp only [linkNode] at hr
        rcases List.mem_append.mp hr with h1 | h2
        · exact (linkVars_bound (valDictSize n.props)).1 _ _ _ _ le_rfl r h1
        · exact ih.2 np 0 vkey n.children r h2
      · intro np i vkey cs r hr
        cases cs with
        | nil => simp [linkKids] at hr
        | cons c t =>
            simp only [linkKids] at hr
            rcases List.mem_append.mp hr with h1 | h2
            · exact ih.1 (np ++ [i]) vkey c r h1
            · exact ih.2 np (i + 1) vkey t r h2

/-- Writing a target dict back never touches the recorded bindings. -/
theorem setTargetDict_dynRefs (lt : LTree) (t : Target)
    (d : List (String × Value)) :
    (setTargetDict lt t d).dynRefs = lt.dynRefs := by
  cases t <;> simp only [setTargetDict] <;> (repeat' split) <;> rfl

/-- The re-walk of one recorded binding adds only bindings of the
variable being linked. -/
theorem walkOneRef_refs (vkey : String) (lt : LTree) (ref : Ref) :
    ∀ r ∈ (walkOneRef vkey lt ref).dynRefs, r ∈ lt.dynRefs ∨ r.var = vkey := by
  intro r hr
  unfold walkOneRef at hr
  split at hr
  · split at hr
    · simp only [setTargetDict_dynRefs] at hr
      rcases List.mem_append.mp hr with h1 | h2
      · exact .inl h1
      · exact .inr ((linkVars_bound _).1 _ _ _ _ le_rfl r h2)
    · exact .inl hr
  · split at hr
    · simp only [setTargetDict_dynRefs] at hr
      rcases List.mem_append.mp hr with h1 | h2
      · exact .inl h1
      · exact .inr ((linkVars_bound _).1 _ _ _ _ le_rfl r h2)
    · exact .inl hr
  · exact .inl hr

/-- The pass over the recorded bindings adds only bindings of the
variable being linked. -/
theorem walkRefList_refs (vkey : String) :
    ∀ (refs : List Ref) (lt : LTree) (r : Ref),
      r ∈ (walkRefList vkey refs lt).dynRefs → r ∈ lt.dynRefs ∨ r.var = vkey := by
  intro refs
  induction refs with
  | nil => intro lt r hr; exact .inl hr
  | cons ref rest ih =>
      intro lt r hr
      rcases ih (walkOneRef vkey lt ref) r hr with h | h
      · exact walkOneRef_refs vkey lt ref r h
      · exact .inr h

/-- One variable's link step adds only bindings of that variable. -/
theorem linkStep_refs (lt : LTree) (kv : String × Value) :
    ∀ r ∈ (linkStep lt kv).dynRefs, r ∈ lt.dynRefs ∨ r.var = kv.1 := by
  intro r hr
  simp only [linkStep] at hr
  rcases walkRefList_refs kv.1 _ _ r hr with h | h
  · simp only [List.append_assoc] at h
    rcases List.mem_append.mp h with h1 | h12
    · exact .inl h1
    · rcases List.mem_append.mp h12 with h2 | h3
      · exact .inr ((linkNodeVars _).1 _ _ _ r h2)
      · exact .inr ((linkVars_bound _).1 _ _ _ _ le_rfl r h3)
  · exact .inr h

/-- A dict entry's key always looks up to something. -/
theorem mem_dictGet?_isSome {α : Type} :
    ∀ (l : List (String × α)) (kv : String × α), kv ∈ l →
      (dictGet? l kv.1).isSome = true := by
  intro l
  induction l with
  | nil => intro kv h; simp at h
  | cons hd tl ih =>
      intro kv h
      cases hd with
      | mk k0 v0 =>
          by_cases he : k0 = kv.1
          · simp [dictGet?, he]
          · rcases List.mem_cons.mp h with hh | h2
            · exact absurd (by rw [hh]) he
            · simpa [dictGet?, he] using ih kv h2

/-- Linking a whole store only ever records store variables. -/
theorem foldl_linkStep_refs (store : List (String × Value)) :
    ∀ (l : List (String × Value)) (lt : LTree),
      (∀ kv ∈ l, (dictGet? store kv.1).isSome = true) →
      (∀ r ∈ lt.dynRefs, (dictGet? store r.var).isSome = true) →
      ∀ r ∈ (l.foldl linkStep lt).dynRefs,
        (dictGet? store r.var).isSome = true := by
  intro l
  induction l with
  | nil => intro lt _ hbase r hr; exact hbase r hr
  | cons kv rest ih =>
      intro lt hl hbase r hr
      simp only [List.foldl_cons] at hr
      refine ih (linkStep lt kv)
        (fun kv2 h2 => hl kv2 (List.mem_cons_of_mem _ h2)) ?_ r hr
      intro r2 hr2
      rcases linkStep_refs lt kv r2 hr2 with h | h
      · exact hbase r2 h
      · rw [h]; exact hl kv (List.mem_cons_self _ _)

/-- Claim C3 (amended): the linking entry point performs no
unknown-variable validation and never fails — it binds only names that
are keys of the variable store (every recorded binding's variable looks
up in the store), and a placeholder whose enclosed name is absent from
the store is silently left in place as the literal marker string with no
binding recorded, the call returning normally (see the
counterexample). -/
theorem C3_unknown_vars_unbound (root : Node) (store : List (String × Value)) :
    ∀ r ∈ (LinkDynamicVars root store).dynRefs,
      (dictGet? store r.var).isSome = true := by
  intro r hr
  exact foldl_linkStep_refs store store ⟨root, store, []⟩
    (fun kv h => mem_dictGet?_isSome store kv h)
    (fun r2 h2 => by simp at h2) r hr

/-- Witness for C3 (amended) at a concrete input: the one binding
recorded for `label(text="<<v>>")` against the store `{v: "A"}` names
the store variable `v`. -/
theorem C3_unknown_vars_unbound_witness :
    (dictGet? [("v", Value.str "A")] "v").isSome = true :=
  C3_unknown_vars_unbound ⟨"label", [("text", .str "<<v>>")], []⟩
    [("v", .str "A")] ⟨.node [] [], .s "text", "v"⟩ (by decide)

/-- Counterexample to claim C3 as stated: the parsed tree
`label(text="<<ghost>>")` contains a placeholder for `ghost`, which is
absent from the store `{present: "x"}`; the linking entry point does not
fail — it returns normally with the placeholder string left in place,
no binding recorded, and the store unchanged. -/
theorem C3_counterexample :
    LinkDynamicVars ⟨"label", [("text", .str "<<ghost>>")], []⟩
        [("present", .str "x")] =
      ⟨⟨"label", [("text", .str "<<ghost>>")], []⟩,
       [("present", .str "x")], []⟩ ∧
    hasMarks "<<ghost>>" = true ∧
    dictGet? [("present", Value.str "x")] "ghost" = Option.none :=
  ⟨rfl, rfl, rfl⟩

/-! ### Claim C4: reserved-key bindings onto the metadata record -/

/-- Claim C4 (code bug): for `container(x=1){ label(name="<<n>>") }`
with store `{n: "Bob"}`, materialization does retarget the `name`
binding onto the label's metadata record (the claim's first half) — but
it keeps the binding's *string* key `"name"`, and the record is a
Python list: the Update Engine's index assignment `record["name"] = ...`
raises `TypeError`, so nothing is written into the record's name slot
and the update pass is aborted, contradicting the claim's second half.
Rewriting the same binding with the int key `1` — exactly what the
group carry-down at lines 660-665 builds for this purpose — would have
written `"Bob"` into the name slot. -/
theorem C4_reserved_key_bug :
    (let lt := LinkDynamicVars
        ⟨"container", [("x", .int 1)],
          [⟨"label", [("name", .str "<<n>>")], []⟩]⟩
        [("n", .str "Bob")]
     lt.dynRefs = [⟨.node [0] [], .s "name", "n"⟩] ∧
     (let σ := CreateUIObjsTop lt [] [] [] []
      σ.refsCur = [⟨.recI 0, .s "name", "n"⟩] ∧
      σ.recs = [[.obj 0, .val .noneV, .val (.list [])]] ∧
      (UpdateVars σ).2 = true ∧
      (UpdateVars σ).1.recs = [[.obj 0, .val .noneV, .val (.list [])]] ∧
      (updGo [⟨.recI 0, .i 1, "n"⟩] σ).1.recs =
        [[.obj 0, .val (.str "Bob"), .val (.list [])]] ∧
      (updGo [⟨.recI 0, .i 1, "n"⟩] σ).2 = false)) ∧
    Value.noneV ≠ Value.str "Bob" := by
  refine ⟨⟨rfl, rfl, rfl, rfl, rfl, rfl, rfl⟩, ?_⟩
  intro h
  exact Value.noConfusion h

/-! ### Claim C6: the shared mutable default `OBJ_LIST` -/

/-- Claim C6 (code bug): materializing two independently parsed trees is
*not* non-interfering.  The builder's default `OBJ_LIST={}` is a mutable
default argument, so a public call (which passes no `OBJ_LIST`) reuses
the dict left by earlier calls.  Building
`container(s=1){ label(text="a") }` and then
`container(s=2){ label(text="b") }` leaves the first tree's metadata
record (its object has text `"a"`) at key `0` of the second build's
returned dict, whose own record lands at key `1`; a fresh build of the
second tree alone returns one record at key `0`.  The two results
differ, and an object from the first tree appears in the second's
result. -/
theorem C6_mutable_default_interference :
    (let b1 := CreateUIObjsTop
        (LinkDynamicVars ⟨"container", [("s", .int 1)],
          [⟨"label", [("text", .str "a")], []⟩]⟩ [])
        [] [] [] []
     let stale := CreateUIObjsTop
        (LinkDynamicVars ⟨"container", [("s", .int 2)],
          [⟨"label", [("text", .str "b")], []⟩]⟩ [])
        [] b1.glist b1.recs b1.objs
     let fresh := CreateUIObjsTop
        (LinkDynamicVars ⟨"container", [("s", .int 2)],
          [⟨"label", [("text", .str "b")], []⟩]⟩ [])
        [] [] [] []
     stale.glist = [(-1, .refsE), (-2, .varsE), (0, .recE 0), (1, .recE 1)] ∧
     fresh.glist = [(-1, .refsE), (-2, .varsE), (0, .recE 0)] ∧
     (stale.objs.map fun o => dictGet? o.attrs "text") =
       [some (.str "a"), some (.str "b")] ∧
     (fresh.objs.map fun o => dictGet? o.attrs "text") = [some (.str "b")]) ∧
    [((-1 : Int), GEntry.refsE), (-2, .varsE), (0, .recE 0), (1, .recE 1)] ≠
      [((-1 : Int), GEntry.refsE), (-2, .varsE), (0, .recE 0)] := by
  refine ⟨⟨rfl, rfl, rfl, rfl⟩, ?_⟩
  decide

/-! ### Claim C9: idempotence of the update engine -/

/-- Counterexample to claim C9 as stated: when the variable store's own
values contain placeholders, linking records bindings *into the store
itself* (`dynamic_vars` is part of the walked structure).  For the store
`{a: "<<b>>", b: "<<c>>", c: "x"}` the materialized state carries the
bindings `store[a] := store[b]` and `store[b] := store[c]`; the first
update pass sets `a := None, b := "x"`, and a second pass with no caller
change to the store sets `a := "x"` — two consecutive passes do not
equal one. -/
theorem C9_counterexample :
    (let lt := LinkDynamicVars ⟨"container", [("x", .int 1)], []⟩
        [("a", .str "<<b>>"), ("b", .str "<<c>>"), ("c", .str "x")]
     lt.dynRefs = [⟨.store [], .s "a", "b"⟩, ⟨.store [], .s "b", "c"⟩] ∧
     (let σ := CreateUIObjsTop lt [] [] [] []
      σ.refsCur = [⟨.store [], .s "a", "b"⟩, ⟨.store [], .s "b", "c"⟩] ∧
      dictGet? (UpdateVars σ).1.lt.dynVars "a" = some .noneV ∧
      dictGet? (UpdateVars (UpdateVars σ).1).1.lt.dynVars "a" =
        some (.str "x"))) ∧
    Value.noneV ≠ Value.str "x" := by
  refine ⟨⟨rfl, rfl, rfl, rfl⟩, ?_⟩
  intro h
  exact Value.noConfusion h

/-- A binding target living on the object/record heaps (a created
widget or a metadata record) rather than in the tree, the store or the
bindings list. -/
def heapTarget : Target → Bool
  | .obj _ => true
  | .recI _ => true
  | _ => false

/-- One absolute heap write of the update pass. -/
inductive UWrite where
  | ow (id : Nat) (k : String) (v : Value)
  | rw (id : Nat) (i : Nat) (v : Value)
deriving Repr

/-- Apply one heap write. -/
def wApply (σ : BState) : UWrite → BState
  | .ow id k v =>
      (match σ.objs.get? id with
       | some o => {σ with objs := σ.objs.set id ⟨o.kind, dictInsert o.attrs k v⟩}
       | Option.none => σ)
  | .rw id i v =>
      (match σ.recs.get? id with
       | some rc => {σ with recs := σ.recs.set id (rc.set i (Cell.val v))}
       | Option.none => σ)

/-- The write one heap-targeted binding performs, as a function of the
store and the heap shapes only (`none` = the binding raises). -/
def refWrite (store : List (String × Value)) (nobjs : Nat)
    (lens : List Nat) : Ref → Option UWrite
  | ⟨.obj id, .s k, var⟩ =>
      (match dictGet? store var with
       | some v => if id < nobjs then some (.ow id k v) else Option.none
       | Option.none => Option.none)
  | ⟨.recI id, .i n, var⟩ =>
      (match dictGet? store var with
       | some v =>
           (match lens.get? id with
            | some L =>
                (match pyWrapIdx L n with
                 | some i => some (.rw id i v)
                 | Option.none => Option.none)
            | Option.none => Option.none)
       | Option.none => Option.none)
  | _ => Option.none

/-- The write trace of an update pass: the writes before the first
raising binding, and whether one raised. -/
def wTrace (store : List (String × Value)) (nobjs : Nat) (lens : List Nat) :
    List Ref → List UWrite × Bool
  | [] => ([], false)
  | r :: rest =>
      match refWrite store nobjs lens r with
      | some w =>
          let t := wTrace store nobjs lens rest
          (w :: t.1, t.2)
      | Option.none => ([], true)

/-- A write whose heap slot exists. -/
def wValid (nobjs : Nat) (lens : List Nat) : UWrite → Bool
  | .ow id _ _ => id < nobjs
  | .rw id i _ =>
      match lens.get? id with
      | some L => i < L
      | Option.none => false

/-- Last value written to an object attribute by a trace. -/
def lastAttrW : List UWrite → Nat → String → Option Value
  | [], _, _ => Option.none
  | w :: t, oid, k =>
      match lastAttrW t oid k with
      | some v => some v
      | Option.none =>
          match w with
          | .ow id k2 v => if id = oid ∧ k2 = k then some v else Option.none
          | .rw _ _ _ => Option.none

/-- Last value written to a record slot by a trace. -/
def lastRecW : List UWrite → Nat → Nat → Option Value
  | [], _, _ => Option.none
  | w :: t, rid, i =>
      match lastRecW t rid i with
      | some v => some v
      | Option.none =>
          match w with
          | .rw id j v => if id = rid ∧ j = i then some v else Option.none
          | .ow _ _ _ => Option.none

/-- Observable state of one object attribute. -/
def obsAttr (σ : BState) (oid : Nat) (k : String) : Option Value :=
  (σ.objs.get? oid).bind (fun o => dictGet? o.attrs k)

/-- Observable state of one metadata-record slot. -/
def obsRec (σ : BState) (rid i : Nat) : Option Cell :=
  (σ.recs.get? rid).bind (fun rc => rc.get? i)

theorem pyWrapIdx_lt {L : Nat} {n : Int} {i : Nat}
    (h : pyWrapIdx L n = some i) : i < L := by
  unfold pyWrapIdx at h
  split at h
  · split at h
    · injection h with h2
      omega
    · exact absurd h (by simp)
  · split at h
    · injection h with h2
      omega
    · exact absurd h (by simp)

theorem list_set_get?_self {α : Type} :
    ∀ (l : List α) (i : Nat) (x : α), l.get? i = some x → l.set i x = l := by
  intro l
  induction l with
  | nil => intro i x h; simp at h
  | cons a t ih =>
      intro i x h
      cases i with
      | zero => simp at h; simp [List.set, h]
      | succ j =>
          have h2 : t.get? j = some x := h
          simp [List.set, ih j x h2]

theorem list_get?_set {α : Type} :
    ∀ (l : List α) (i j : Nat) (a : α),
      (l.set i a).get? j =
        if i = j ∧ i < l.length then some a else l.get? j := by
  intro l
  induction l with
  | nil => intro i j a; simp
  | cons x t ih =>
      intro i j a
      cases i with
      | zero =>
          cases j with
          | zero => simp
          | succ j2 => simp
      | succ i2 =>
          cases j with
          | zero => simp [List.set]
          | succ j2 =>
              show (t.set i2 a).get? j2 =
                if i2 + 1 = j2 + 1 ∧ i2 + 1 < (x :: t).length then some a
                else t.get? j2
              rw [ih i2 j2 a]
              by_cases hij : i2 = j2 ∧ i2 < t.length
              · rw [if_pos hij,
                  if_pos (by simp only [List.length_cons]; omega)]
              · rw [if_neg hij,
                  if_neg (by simp only [List.length_cons]; omega)]

theorem dictGet?_insert {α : Type} :
    ∀ (d : List (String × α)) (k k2 : String) (v : α),
      dictGet? (dictInsert d k v) k2 =
        if k = k2 then some v else dictGet? d k2 := by
  intro d
  induction d with
  | nil =>
      intro k k2 v
      simp [dictInsert, dictGet?]
  | cons kv rest ih =>
      intro k k2 v
      cases kv with
      | mk k0 v0 =>
          by_cases h0 : k0 = k
          · subst h0
            simp only [dictInsert, if_pos rfl, dictGet?]
            by_cases h2 : k0 = k2
            · rw [if_pos h2, if_pos h2]
            · rw [if_neg h2, if_neg h2, if_neg h2]
          · simp only [dictInsert, if_neg h0, dictGet?, ih]
            by_cases h2 : k0 = k2
            · subst h2
              rw [if_pos rfl, if_pos rfl]
              rw [if_neg (fun he => h0 he.symm)]
            · rw [if_neg h2, if_neg h2]

theorem wApply_lt (σ : BState) (w : UWrite) : (wApply σ w).lt = σ.lt := by
  cases w <;> simp only [wApply] <;> split <;> rfl

theorem wApply_refsCur (σ : BState) (w : UWrite) :
    (wApply σ w).refsCur = σ.refsCur := by
  cases w <;> simp only [wApply] <;> split <;> rfl

theorem wApply_objsLen (σ : BState) (w : UWrite) :
    (wApply σ w).objs.length = σ.objs.length := by
  cases w <;> simp only [wApply] <;> split <;> simp [List.length_set]

theorem wApply_recsLens (σ : BState) (w : UWrite) :
    (wApply σ w).recs.map List.length = σ.recs.map List.length := by
  cases w with
  | ow id k v => simp only [wApply]; split <;> rfl
  | rw id i v =>
      simp only [wApply]
      split
      · next rc hrc =>
          simp only [List.map_set, List.length_set]
          exact list_set_get?_self _ _ _
            (by rw [List.get?_map, hrc]; rfl)
      · rfl

theorem foldl_wApply_lt (t : List UWrite) :
    ∀ σ : BState, (t.foldl wApply σ).lt = σ.lt := by
  induction t with
  | nil => intro σ; rfl
  | cons w t2 ih =>
      intro σ
      simp only [List.foldl_cons, ih, wApply_lt]

theorem foldl_wApply_refsCur (t : List UWrite) :
    ∀ σ : BState, (t.foldl wApply σ).refsCur = σ.refsCur := by
  induction t with
  | nil => intro σ; rfl
  | cons w t2 ih =>
      intro σ
      simp only [List.foldl_cons, ih, wApply_refsCur]

theorem foldl_wApply_objsLen (t : List UWrite) :
    ∀ σ : BState, (t.foldl wApply σ).objs.length = σ.objs.length := by
  induction t with
  | nil => intro σ; rfl
  | cons w t2 ih =>
      intro σ
      simp only [List.foldl_cons, ih, wApply_objsLen]

theorem foldl_wApply_recsLens (t : List UWrite) :
    ∀ σ : BState, (t.foldl wApply σ).recs.map List.length =
      σ.recs.map List.length := by
  induction t with
  | nil => intro σ; rfl
  | cons w t2 ih =>
      intro σ
      simp only [List.foldl_cons, ih, wApply_recsLens]

/-- Every trace write addresses an existing heap slot. -/
theorem wTrace_valid (store : List (String × Value)) (nobjs : Nat)
    (lens : List Nat) :
    ∀ (refs : List Ref) (w : UWrite),
      w ∈ (wTrace store nobjs lens refs).1 → wValid nobjs lens w = true := by
  intro refs
  induction refs with
  | nil => intro w hw; simp [wTrace] at hw
  | cons r rest ih =>
      intro w hw
      unfold wTrace at hw
      split at hw
      · next w2 hw2 =>
          rcases List.mem_cons.mp hw with hh | ht
          · subst hh
            unfold refWrite at hw2
            split at hw2
            · split at hw2
              · next v hv =>
                  split at hw2
                  · next hlt =>
                      injection hw2 with he
                      rw [← he]
                      simpa [wValid] using hlt
                  · exact absurd hw2 (by simp)
              · exact absurd hw2 (by simp)
            · split at hw2
              · next v hv =>
                  split at hw2
                  · next L hL =>
                      split at hw2
                      · next i hi =>
                          injection hw2 with he
                          rw [← he]
                          simp only [wValid, hL, decide_eq_true_eq]
                          exact pyWrapIdx_lt hi
                      · exact absurd hw2 (by simp)
                  · exact absurd hw2 (by simp)
              · exact absurd hw2 (by simp)
            · exact absurd hw2 (by simp)
          · exact ih w ht
      · simp at hw

theorem list_get?_lt {α : Type} :
    ∀ (l : List α) (i : Nat), i < l.length → ∃ x, l.get? i = some x := by
  intro l
  induction l with
  | nil => intro i h; simp at h
  | cons a t ih =>
      intro i h
      cases i with
      | zero => exact ⟨a, rfl⟩
      | succ j => exact ih j (by simpa using h)

/-- An update pass over heap-targeted bindings is exactly its write
trace: the same writes applied in order, cut at the first raising
binding. -/
theorem updGo_trace :
    ∀ (refs : List Ref) (σ : BState),
      (∀ r ∈ refs, heapTarget r.target = true) →
      updGo refs σ =
        ((wTrace σ.lt.dynVars σ.objs.length (σ.recs.map List.length)
            refs).1.foldl wApply σ,
         (wTrace σ.lt.dynVars σ.objs.length (σ.recs.map List.length)
            refs).2) := by
  intro refs
  induction refs with
  | nil => intro σ _; rfl
  | cons r rest ih =>
      intro σ h
      have hr := h r (List.mem_cons_self r rest)
      have hrest := fun r2 h2 => h r2 (List.mem_cons_of_mem r h2)
      obtain ⟨tg, key, var⟩ := r
      cases tg with
      | node np vp => simp [heapTarget] at hr
      | store vp => simp [heapTarget] at hr
      | refsL => simp [heapTarget] at hr
      | noneT => simp [heapTarget] at hr
      | obj id =>
          cases key with
          | i n =>
              rcases hv : dictGet? σ.lt.dynVars var with _ | v <;>
                simp [updGo, applyRef, wTrace, refWrite, hv]
          | s k =>
              rcases hv : dictGet? σ.lt.dynVars var with _ | v
              · simp [updGo, applyRef, wTrace, refWrite, hv]
              · rcases ho : σ.objs.get? id with _ | o
                · have hge : σ.objs.length ≤ id := by
                    by_contra hc
                    rcases list_get?_lt σ.objs id (by omega) with ⟨x, hx⟩
                    rw [hx] at ho
                    exact Option.noConfusion ho
                  have ho2 : σ.objs[id]? = Option.none := by
                    rw [← List.get?_eq_getElem?]
                    exact ho
                  simp [updGo, applyRef, wTrace, refWrite, hv, ho, ho2,
                    Nat.not_lt.mpr hge]
                · have hlt : id < σ.objs.length := by
                    by_contra hc
                    rw [List.get?_eq_none.mpr (by omega)] at ho
                    exact Option.noConfusion ho
                  have hwap : wApply σ (.ow id k v) =
                      {σ with objs := σ.objs.set id ⟨o.kind, dictInsert o.attrs k v⟩} := by
                    simp only [wApply, ho]
                  simp only [updGo, applyRef, hv, ho]
                  simp only [wTrace, refWrite, hv, if_pos hlt]
                  simp only [List.foldl_cons, hwap]
                  have := ih {σ with objs := σ.objs.set id ⟨o.kind, dictInsert o.attrs k v⟩} hrest
                  simpa [List.length_set] using this
      | recI id =>
          cases key with
          | s k =>
              rcases hv : dictGet? σ.lt.dynVars var with _ | v <;>
                simp [updGo, applyRef, wTrace, refWrite, hv]
          | i n =>
              rcases hv : dictGet? σ.lt.dynVars var with _ | v
              · simp [updGo, applyRef, wTrace, refWrite, hv]
              · rcases hrc : σ.recs.get? id with _ | rc
                · have hrc2 : σ.recs[id]? = Option.none := by
                    rw [← List.get?_eq_getElem?]
                    exact hrc
                  have hm : (σ.recs.map List.length).get? id = Option.none := by
                    rw [List.get?_map, hrc]
                    rfl
                  have hm2 : (σ.recs.map List.length)[id]? = Option.none := by
                    rw [← List.get?_eq_getElem?]
                    exact hm
                  simp [updGo, applyRef, wTrace, refWrite, hv, hrc, hrc2,
                    hm, hm2]
                · have hm : (σ.recs.map List.length).get? id =
                      some rc.length := by
                    rw [List.get?_map, hrc]
                    rfl
                  rcases hwi : pyWrapIdx rc.length n with _ | i
                  · have hrc2 : σ.recs[id]? = some rc := by
                      rw [← List.get?_eq_getElem?]
                      exact hrc
                    have hm2 : (σ.recs.map List.length)[id]? =
                        some rc.length := by
                      rw [← List.get?_eq_getElem?]
                      exact hm
                    simp [updGo, applyRef, wTrace, refWrite, hv, hrc, hrc2,
                      hm, hm2, hwi]
                  · have hwap : wApply σ (.rw id i v) =
                        {σ with recs := σ.recs.set id (rc.set i (Cell.val v))} := by
                      simp only [wApply, hrc]
                    simp only [updGo, applyRef, hv, hrc, hwi]
                    simp only [wTrace, refWrite, hv, hm, hwi]
                    simp only [List.foldl_cons, hwap]
                    have := ih {σ with recs := σ.recs.set id (rc.set i (Cell.val v))} hrest
                    have hlens : (σ.recs.set id
                        (rc.set i (Cell.val v))).map List.length =
                        σ.recs.map List.length := by
                      rw [List.map_set]
                      simp only [List.length_set]
                      exact list_set_get?_self _ _ _
                        (by rw [List.get?_map, hrc]; rfl)
                    rw [this, hlens]

theorem wApply_obsAttr (σ : BState) (w : UWrite) (oid : Nat) (k : String)
    (hv : wValid σ.objs.length (σ.recs.map List.length) w = true) :
    obsAttr (wApply σ w) oid k =
      (match w with
       | .ow id k2 v =>
           if id = oid ∧ k2 = k then some v else obsAttr σ oid k
       | .rw _ _ _ => obsAttr σ oid k) := by
  cases w with
  | rw id i v =>
      simp only [wApply]
      rcases hrc : σ.recs.get? id with _ | rc
      · rfl
      · rfl
  | ow id k2 v =>
      simp only [wValid, decide_eq_true_eq] at hv
      rcases list_get?_lt σ.objs id hv with ⟨o, ho⟩
      simp only [wApply, ho, obsAttr]
      rw [list_get?_set]
      by_cases hid : id = oid
      · subst hid
        rw [if_pos ⟨rfl, hv⟩]
        simp only [Option.some_bind, dictGet?_insert, ho]
        by_cases hk : k2 = k
        · simp [hk]
        · simp [hk]
      · rw [if_neg (by intro hc; exact hid hc.1),
          if_neg (by intro hc; exact hid hc.1)]

theorem wApply_obsRec (σ : BState) (w : UWrite) (rid j : Nat)
    (hv : wValid σ.objs.length (σ.recs.map List.length) w = true) :
    obsRec (wApply σ w) rid j =
      (match w with
       | .rw id i v =>
           if id = rid ∧ i = j then some (Cell.val v) else obsRec σ rid j
       | .ow _ _ _ => obsRec σ rid j) := by
  cases w with
  | ow id k v =>
      simp only [wApply]
      rcases ho : σ.objs.get? id with _ | o
      · rfl
      · rfl
  | rw id i v =>
      rcases hrc : σ.recs.get? id with _ | rc
      · simp only [wValid] at hv
        rw [List.get?_map, hrc] at hv
        simp at hv
      · have hil : i < rc.length := by
          simp only [wValid] at hv
          rw [List.get?_map, hrc] at hv
          simpa using hv
        have hidlt : id < σ.recs.length := by
          by_contra hc
          rw [List.get?_eq_none.mpr (by omega)] at hrc
          exact Option.noConfusion hrc
        simp only [wApply, hrc, obsRec]
        rw [list_get?_set]
        by_cases hid : id = rid
        · subst hid
          rw [if_pos ⟨rfl, hidlt⟩]
          simp only [Option.some_bind, hrc]
          rw [list_get?_set]
          by_cases hij : i = j
          · rw [if_pos ⟨hij, hil⟩]
            simp [hij]
          · simp only [if_neg (show ¬(i = j ∧ i < rc.length) from
              fun hc => hij hc.1)]
            simp [hij]
        · rw [if_neg (by intro hc; exact hid hc.1),
            if_neg (by intro hc; exact hid hc.1)]

theorem foldl_obsAttr :
    ∀ (t : List UWrite) (σ : BState) (oid : Nat) (k : String),
      (∀ w ∈ t, wValid σ.objs.length (σ.recs.map List.length) w = true) →
      obsAttr (t.foldl wApply σ) oid k =
        (match lastAttrW t oid k with
         | some v => some v
         | Option.none => obsAttr σ oid k) := by
  intro t
  induction t with
  | nil => intro σ oid k _; rfl
  | cons w t2 ih =>
      intro σ oid k hval
      have hw := hval w (List.mem_cons_self w t2)
      have ht2 : ∀ w2 ∈ t2,
          wValid (wApply σ w).objs.length
            ((wApply σ w).recs.map List.length) w2 = true := by
        intro w2 h2
        rw [wApply_objsLen, wApply_recsLens]
        exact hval w2 (List.mem_cons_of_mem w h2)
      simp only [List.foldl_cons]
      rw [ih (wApply σ w) oid k ht2]
      simp only [lastAttrW]
      rcases lastAttrW t2 oid k with _ | v2
      · rw [wApply_obsAttr σ w oid k hw]
        cases w with
        | ow id k2 v =>
            by_cases hc : id = oid ∧ k2 = k
            · simp [hc]
            · simp [hc]
        | rw id i v => rfl
      · rfl

theorem foldl_obsRec :
    ∀ (t : List UWrite) (σ : BState) (rid j : Nat),
      (∀ w ∈ t, wValid σ.objs.length (σ.recs.map List.length) w = true) →
      obsRec (t.foldl wApply σ) rid j =
        (match lastRecW t rid j with
         | some v => some (Cell.val v)
         | Option.none => obsRec σ rid j) := by
  intro t
  induction t with
  | nil => intro σ rid j _; rfl
  | cons w t2 ih =>
      intro σ rid j hval
      have hw := hval w (List.mem_cons_self w t2)
      have ht2 : ∀ w2 ∈ t2,
          wValid (wApply σ w).objs.length
            ((wApply σ w).recs.map List.length) w2 = true := by
        intro w2 h2
        rw [wApply_objsLen, wApply_recsLens]
        exact hval w2 (List.mem_cons_of_mem w h2)
      simp only [List.foldl_cons]
      rw [ih (wApply σ w) rid j ht2]
      simp only [lastRecW]
      rcases lastRecW t2 rid j with _ | v2
      · rw [wApply_obsRec σ w rid j hw]
        cases w with
        | rw id i v =>
            by_cases hc : id = rid ∧ i = j
            · simp [hc]
            · simp [hc]
        | ow id k v => rfl
      · rfl

/-- Claim C9 (amended): the update engine is idempotent *on states whose
bindings all target created objects or metadata records* — the situation
the builder produces whenever no binding points back into the variable
store or the tree (the retarget/carry-down passes yield such targets for
every binding they resolve).  For such a state, a second pass with an
unchanged store leaves every object attribute and every record slot
exactly as after the first pass, does not touch the bindings list or the
tree/store, and aborts at the same point (if any).  Without the target
restriction idempotence fails: bindings into the store itself re-read
values the first pass overwrote (see the counterexample). -/
theorem C9_update_idempotent_amended (σ : BState)
    (hT : σ.refsCur.all (fun r => heapTarget r.target) = true) :
    (∀ oid k, obsAttr (UpdateVars (UpdateVars σ).1).1 oid k =
        obsAttr (UpdateVars σ).1 oid k) ∧
    (∀ rid j, obsRec (UpdateVars (UpdateVars σ).1).1 rid j =
        obsRec (UpdateVars σ).1 rid j) ∧
    (UpdateVars (UpdateVars σ).1).1.refsCur = (UpdateVars σ).1.refsCur ∧
    (UpdateVars (UpdateVars σ).1).1.lt = (UpdateVars σ).1.lt ∧
    (UpdateVars (UpdateVars σ).1).2 = (UpdateVars σ).2 := by
  have hT2 : ∀ r ∈ σ.refsCur, heapTarget r.target = true :=
    fun r hr => by
      have := List.all_eq_true.mp hT r hr
      simpa using this
  have h1 : UpdateVars σ =
      ((wTrace σ.lt.dynVars σ.objs.length (σ.recs.map List.length)
          σ.refsCur).1.foldl wApply σ,
       (wTrace σ.lt.dynVars σ.objs.length (σ.recs.map List.length)
          σ.refsCur).2) :=
    updGo_trace σ.refsCur σ hT2
  set t := (wTrace σ.lt.dynVars σ.objs.length (σ.recs.map List.length)
      σ.refsCur).1 with ht
  have hval : ∀ w ∈ t, wValid σ.objs.length (σ.recs.map List.length)
      w = true :=
    fun w hw => wTrace_valid σ.lt.dynVars σ.objs.length
      (σ.recs.map List.length) σ.refsCur w hw
  have hrefs1 : (UpdateVars σ).1.refsCur = σ.refsCur := by
    rw [h1]
    exact foldl_wApply_refsCur t σ
  have hlt1 : (UpdateVars σ).1.lt = σ.lt := by
    rw [h1]
    exact foldl_wApply_lt t σ
  have hob1 : (UpdateVars σ).1.objs.length = σ.objs.length := by
    rw [h1]
    exact foldl_wApply_objsLen t σ
  have hrl1 : (UpdateVars σ).1.recs.map List.length =
      σ.recs.map List.length := by
    rw [h1]
    exact foldl_wApply_recsLens t σ
  have hT2b : ∀ r ∈ (UpdateVars σ).1.refsCur, heapTarget r.target = true := by
    rw [hrefs1]
    exact hT2
  have h2 : UpdateVars (UpdateVars σ).1 =
      (t.foldl wApply (UpdateVars σ).1,
       (wTrace σ.lt.dynVars σ.objs.length (σ.recs.map List.length)
          σ.refsCur).2) := by
    show updGo (UpdateVars σ).1.refsCur (UpdateVars σ).1 = _
    rw [hrefs1]
    have h := updGo_trace σ.refsCur (UpdateVars σ).1 hT2
    rw [hlt1, hob1, hrl1] at h
    exact h
  have hval2 : ∀ w ∈ t, wValid (UpdateVars σ).1.objs.length
      ((UpdateVars σ).1.recs.map List.length) w = true := by
    intro w hw
    rw [hob1, hrl1]
    exact hval w hw
  have hA1 : ∀ oid k, obsAttr (UpdateVars σ).1 oid k =
      (match lastAttrW t oid k with
       | some v => some v
       | Option.none => obsAttr σ oid k) := by
    intro oid k
    rw [h1]
    exact foldl_obsAttr t σ oid k hval
  have hA2 : ∀ oid k, obsAttr (UpdateVars (UpdateVars σ).1).1 oid k =
      (match lastAttrW t oid k with
       | some v => some v
       | Option.none => obsAttr (UpdateVars σ).1 oid k) := by
    intro oid k
    rw [h2]
    exact foldl_obsAttr t (UpdateVars σ).1 oid k hval2
  have hR1 : ∀ rid j, obsRec (UpdateVars σ).1 rid j =
      (match lastRecW t rid j with
       | some v => some (Cell.val v)
       | Option.none => obsRec σ rid j) := by
    intro rid j
    rw [h1]
    exact foldl_obsRec t σ rid j hval
  have hR2 : ∀ rid j, obsRec (UpdateVars (UpdateVars σ).1).1 rid j =
      (match lastRecW t rid j with
       | some v => some (Cell.val v)
       | Option.none => obsRec (UpdateVars σ).1 rid j) := by
    intro rid j
    rw [h2]
    exact foldl_obsRec t (UpdateVars σ).1 rid j hval2
  refine ⟨?_, ?_, ?_, ?_, ?_⟩
  · intro oid k
    rw [hA2 oid k]
    cases hl : lastAttrW t oid k with
    | some v =>
        simp only [hl]
        rw [hA1 oid k, hl]
    | none => simp [hl]
  · intro rid j
    rw [hR2 rid j]
    cases hl : lastRecW t rid j with
    | some v =>
        simp only [hl]
        rw [hR1 rid j, hl]
    | none => simp [hl]
  · rw [h2]
    exact foldl_wApply_refsCur t (UpdateVars σ).1
  · rw [h2]
    exact foldl_wApply_lt t (UpdateVars σ).1
  · rw [h2, h1]

/-- Witness for C9 (amended) at a concrete state: one object-attribute
binding and one record-slot binding; the hypothesis evaluates to `true`
and the second pass leaves the observed attribute as the first left
it. -/
theorem C9_update_idempotent_amended_witness :
    (([⟨Target.obj 0, .s "text", "v"⟩, ⟨Target.recI 0, .i 0, "v"⟩] :
        List Ref).all (fun r => heapTarget r.target) = true) ∧
    (let σ0 : BState :=
      ⟨⟨⟨"container", [], []⟩, [("v", .str "A")], []⟩, [], [[Cell.obj 0]],
       [⟨"label", [("text", .str "t")]⟩],
       [⟨Target.obj 0, .s "text", "v"⟩, ⟨Target.recI 0, .i 0, "v"⟩], []⟩
     obsAttr (UpdateVars (UpdateVars σ0).1).1 0 "text" =
       obsAttr (UpdateVars σ0).1 0 "text") :=
  ⟨rfl,
   (C9_update_idempotent_amended
     ⟨⟨⟨"container", [], []⟩, [("v", .str "A")], []⟩, [], [[Cell.obj 0]],
      [⟨"label", [("text", .str "t")]⟩],
      [⟨Target.obj 0, .s "text", "v"⟩, ⟨Target.recI 0, .i 0, "v"⟩], []⟩
     rfl).1 0 "text"⟩

end ArcadeDSL
